import Mathlib

/-
Verification of the syntactic front end of the jayakarthik-jk/compiler
repository (src/syntax_analysis/parser.rs, src/lexical_analysis/token.rs,
src/common/symbol_table.rs), as a shallow embedding in Lean 4.

The parser source is translated function by function.  Modules that the
repository uses but that are not under src/ (the lexer, the Block scope
tree, the operator enums with their precedences, the keyword and symbol
enums, the datatypes module and the diagnostics sink) are modelled from the
specification; each such definition carries a doc comment saying so.
-/

namespace Compiler

/-- Modelled from the spec: src/lexical_analysis/keywords.rs is not under
src/.  The keywords the parser source mentions are Mutable, Is, And, Or,
Not, Xor; the source TODO comment also names an In keyword, which stands in
for the other keywords of the language. -/
inductive Keyword where
  | Mutable
  | Is
  | And
  | Or
  | Not
  | Xor
  | In
deriving DecidableEq, Repr

/-- Modelled from the spec: src/lexical_analysis/symbols.rs is not under
src/.  These are the symbols named by the parser source. -/
inductive Symbol where
  | Equals
  | Plus
  | Minus
  | Asterisk
  | Slash
  | Percent
  | Exclamation
  | GreaterThan
  | LessThan
  | OpenParanthesis
  | CloseParanthesis
  | OpenCurlyBracket
  | CloseCurlyBracket
deriving DecidableEq, Repr

/-- Modelled from the spec: src/common/datatypes.rs is not under src/.  The
parser source only names DataType::InternalUndefined (the placeholder value
bound by mutable declarations); Number stands in for the observable literal
values the lexer produces. -/
inductive DataType where
  | InternalUndefined
  | Number (n : Nat)
deriving DecidableEq, Repr

/-- Modelled from the spec: a Variable is a value plus a mutability flag
(spec section 3); the parser source uses Variable::new_mutable,
Variable::is_mutable and the value field. -/
structure Variable where
  value : DataType
  mutable : Bool
deriving DecidableEq, Repr

def Variable.new_mutable (value : DataType) : Variable :=
  { value := value, mutable := true }

def Variable.is_mutable (v : Variable) : Bool :=
  v.mutable

/-- TokenKind, from src/lexical_analysis/token.rs. -/
inductive TokenKind where
  | LiteralToken (value : Variable)
  | WhitespaceToken (count : Nat)
  | NewLineToken
  | KeywordToken (keyword : Keyword)
  | SymbolToken (symbol : Symbol)
  | FactoryToken
  | IdentifierToken (name : String)
  | EndOfFileToken
deriving DecidableEq, Repr

/-- Token, from src/lexical_analysis/token.rs. -/
structure Token where
  kind : TokenKind
  line : Nat
  column : Nat
deriving DecidableEq, Repr

def Token.new (kind : TokenKind) (line column : Nat) : Token :=
  { kind := kind, line := line, column := column }

/-- Arithmetic operators, from the operators module named by parser.rs. -/
inductive Arithmetic where
  | Addition
  | Subtraction
  | Multiplication
  | Division
  | Modulo
  | Exponentiation
deriving DecidableEq, Repr

/-- Assignment operators (source module spells the name Assingment). -/
inductive Assingment where
  | SimpleAssignment
  | AdditionAssignment
  | SubtractionAssignment
  | MultiplicationAssignment
  | DivisionAssignment
  | ModuloAssignment
  | ExponentiationAssignment
deriving DecidableEq, Repr

/-- Relational operators, from the operators module named by parser.rs. -/
inductive Relational where
  | Equality
  | InEquality
  | LessThan
  | LessThanOrEquals
  | GreaterThan
  | GreaterThanOrEquals
deriving DecidableEq, Repr

/-- Logical operators, from the operators module named by parser.rs. -/
inductive Logical where
  | And
  | Or
  | Not
  | Xor
deriving DecidableEq, Repr

/-- Operator, the closed variant grouped by category (spec section 3). -/
inductive Operator where
  | ArithmeticOperator (op : Arithmetic)
  | AssignmentOperator (op : Assingment)
  | RelationalOperator (op : Relational)
  | LogicalOperator (op : Logical)
deriving DecidableEq, Repr

/-- Modelled from the spec: the operators module carrying the precedences is
not under src/.  Spec section 8 fixes the ordering exponentiation > unary
minus > multiplicative > additive > relational > logical, and section 3 says
operators with no unary meaning report a precedence that disqualifies them
from unary position; the concrete integers below realize that ordering. -/
def Operator.get_unery_precedence : Operator → Nat
  | .ArithmeticOperator .Addition => 5
  | .ArithmeticOperator .Subtraction => 5
  | .LogicalOperator .Not => 5
  | _ => 0

/-- Modelled from the spec: binary precedences realizing the ordering of
spec section 8 (exponentiation > multiplicative > additive > relational >
logical, with assignment operators never qualifying as binary). -/
def Operator.get_binary_precedence : Operator → Nat
  | .ArithmeticOperator .Exponentiation => 6
  | .ArithmeticOperator .Multiplication => 4
  | .ArithmeticOperator .Division => 4
  | .ArithmeticOperator .Modulo => 4
  | .ArithmeticOperator .Addition => 3
  | .ArithmeticOperator .Subtraction => 3
  | .RelationalOperator _ => 2
  | .LogicalOperator _ => 1
  | .AssignmentOperator _ => 0

/-- CompilerError, the error taxonomy of spec section 7; the variants are
the ones the parser source constructs. -/
inductive CompilerError where
  | UnexpectedToken (kind : TokenKind) (line column : Nat)
  | CannotConvertFromImmutableToMutable
  | UnInitializedVariable (name : String)
  | InvalidUseOfMutableKeyword
  | UndefinedVariable (name : String)
  | InvalidOperationAsAssignmentOperation
  | Warnings (message : String)
deriving DecidableEq, Repr

/-- AbstractSyntaxTree, from src/syntax_analysis/ast.rs as described by spec
section 3. -/
inductive AbstractSyntaxTree where
  | Literal (value : Variable)
  | Identifier (name : String)
  | UnaryExpression (operator : Operator) (operand : AbstractSyntaxTree)
  | BinaryExpression (left : AbstractSyntaxTree) (operator : Operator)
      (right : AbstractSyntaxTree)
  | ParenthesizedExpression (inner : AbstractSyntaxTree)
  | AssignmentExpression (name : String) (operator : Operator)
      (value : AbstractSyntaxTree)
deriving DecidableEq, Repr

/-- Modelled from the spec: src/syntax_analysis/block.rs is not under src/.
A Block owns one symbol table and refers to its parent scope; per spec
section 3 lookup climbs the parent chain and insertion always targets the
current block own table.  The parent chain is flattened into the list of
ancestor tables (nearest first); the parent blocks are not mutated while a
child block is being parsed, so this flattening is faithful. -/
structure Block where
  symbols : List (String × Variable)
  parents : List (List (String × Variable))
deriving DecidableEq, Repr

def Block.new : Block :=
  { symbols := [], parents := [] }

def Block.fromParent (parent : Block) : Block :=
  { symbols := [], parents := parent.symbols :: parent.parents }

/-- Lookup in one table; the entry added last shadows earlier entries, so
consing on insertion is observationally a map overwrite. -/
def lookupName : List (String × Variable) → String → Option Variable
  | [], _ => none
  | (k, v) :: rest, name => if k = name then some v else lookupName rest name

def lookupChain : List (List (String × Variable)) → String → Option Variable
  | [], _ => none
  | table :: rest, name =>
    match lookupName table name with
    | some v => some v
    | none => lookupChain rest name

/-- Name lookup climbing the parent chain (spec section 3). -/
def Block.get_symbol (b : Block) (name : String) : Option Variable :=
  match lookupName b.symbols name with
  | some v => some v
  | none => lookupChain b.parents name

def Block.contains_symbol (b : Block) (name : String) : Bool :=
  (b.get_symbol name).isSome

/-- Insertion always targets the current block own table (spec section 3). -/
def Block.add_symbol (b : Block) (name : String) (v : Variable) : Block :=
  { b with symbols := (name, v) :: b.symbols }

/-- Modelled from the spec: the lexer (src/lexical_analysis/lexer.rs) is not
under src/.  Spec section 6: the token stream cursor is the only mutable
lexer state; peek(offset) returns an EndOfFile token for any offset past the
end and advance is a no-op past the end.  The diagnostics sink of spec
section 6 is carried alongside as the diags list. -/
structure PState where
  tokens : List Token
  pos : Nat
  diags : List CompilerError
deriving DecidableEq, Repr

def eofToken : Token :=
  { kind := .EndOfFileToken, line := 0, column := 0 }

def PState.peek (s : PState) (offset : Nat) : Token :=
  s.tokens.getD (s.pos + offset) eofToken

def PState.get_current_token (s : PState) : Token :=
  s.peek 0

def PState.advance (s : PState) : PState :=
  { s with pos := if s.pos < s.tokens.length then s.pos + 1 else s.pos }

def PState.advanceN : PState → Nat → PState
  | s, 0 => s
  | s, n + 1 => PState.advanceN s.advance n

def PState.add_diag (s : PState) (e : CompilerError) : PState :=
  { s with diags := s.diags ++ [e] }

/-- Outcome of a parsing function: the source returns Result values while
mutating the lexer cursor, the diagnostics sink and the current block, so
ok and err carry the state and block out; unimplemented models reaching a
todo or a failing unwrap (a Rust panic), and outOfFuel is the fuel
sentinel of the embedding. -/
inductive POut (α : Type) where
  | ok (value : α) (s : PState) (block : Block)
  | err (e : CompilerError) (s : PState) (block : Block)
  | unimplemented (msg : String)
  | outOfFuel
deriving DecidableEq, Repr

/-- match_operator, from parser.rs lines 213 to 429.  Pure lookahead: the
source only calls lexer.peek and never advances; the returned count is
offset + length where length is the token count of the recognized operator
(source line 428). -/
def match_operator (s : PState) (offset : Nat) : Option (Operator × Nat) :=
  match (s.peek offset).kind with
  | .SymbolToken operator_symbol =>
    match operator_symbol with
    | .Equals =>
      match (s.peek (offset + 1)).kind with
      | .SymbolToken second_symbol =>
        if second_symbol = .Equals then
          some (.RelationalOperator .Equality, offset + 2)
        else
          some (.AssignmentOperator .SimpleAssignment, offset + 1)
      | _ => some (.AssignmentOperator .SimpleAssignment, offset + 1)
    | .Plus =>
      match (s.peek (offset + 1)).kind with
      | .SymbolToken second_symbol =>
        if second_symbol = .Equals then
          some (.AssignmentOperator .AdditionAssignment, offset + 2)
        else
          some (.ArithmeticOperator .Addition, offset + 1)
      | _ => some (.ArithmeticOperator .Addition, offset + 1)
    | .Minus =>
      match (s.peek (offset + 1)).kind with
      | .SymbolToken second_symbol =>
        if second_symbol = .Equals then
          some (.AssignmentOperator .SubtractionAssignment, offset + 2)
        else
          some (.ArithmeticOperator .Subtraction, offset + 1)
      | _ => some (.ArithmeticOperator .Subtraction, offset + 1)
    | .Asterisk =>
      match (s.peek (offset + 1)).kind with
      | .SymbolToken second_symbol =>
        if second_symbol = .Equals then
          some (.AssignmentOperator .MultiplicationAssignment, offset + 2)
        else if second_symbol = .Asterisk then
          match (s.peek (offset + 2)).kind with
          | .SymbolToken third_token =>
            if third_token = .Equals then
              some (.AssignmentOperator .ExponentiationAssignment, offset + 3)
            else
              some (.ArithmeticOperator .Exponentiation, offset + 2)
          | _ => some (.ArithmeticOperator .Exponentiation, offset + 2)
        else
          some (.ArithmeticOperator .Multiplication, offset + 1)
      | _ => some (.ArithmeticOperator .Multiplication, offset + 1)
    | .Slash =>
      match (s.peek (offset + 1)).kind with
      | .SymbolToken second_symbol =>
        if second_symbol = .Equals then
          some (.AssignmentOperator .DivisionAssignment, offset + 2)
        else
          some (.ArithmeticOperator .Division, offset + 1)
      | _ => some (.ArithmeticOperator .Division, offset + 1)
    | .Percent =>
      match (s.peek (offset + 1)).kind with
      | .SymbolToken second_symbol =>
        if second_symbol = .Equals then
          some (.AssignmentOperator .ModuloAssignment, offset + 2)
        else
          some (.ArithmeticOperator .Modulo, offset + 1)
      | _ => some (.ArithmeticOperator .Modulo, offset + 1)
    | .Exclamation =>
      match (s.peek (offset + 1)).kind with
      | .SymbolToken second_symbol =>
        if second_symbol = .Equals then
          some (.RelationalOperator .InEquality, offset + 2)
        else
          some (.LogicalOperator .Not, offset + 1)
      | _ => some (.LogicalOperator .Not, offset + 1)
    | .GreaterThan =>
      match (s.peek (offset + 1)).kind with
      | .SymbolToken second_symbol =>
        if second_symbol = .Equals then
          some (.RelationalOperator .GreaterThanOrEquals, offset + 2)
        else
          some (.RelationalOperator .GreaterThan, offset + 1)
      | _ => some (.RelationalOperator .GreaterThan, offset + 1)
    | .LessThan =>
      match (s.peek (offset + 1)).kind with
      | .SymbolToken second_symbol =>
        if second_symbol = .Equals then
          some (.RelationalOperator .LessThanOrEquals, offset + 2)
        else
          some (.RelationalOperator .LessThan, offset + 1)
      | _ => some (.RelationalOperator .LessThan, offset + 1)
    | _ => none
  | .KeywordToken keyword =>
    match keyword with
    | .Is =>
      match (s.peek (offset + 1)).kind with
      | .KeywordToken second_keyword =>
        if second_keyword = .Not then
          some (.RelationalOperator .InEquality, offset + 2)
        else
          some (.RelationalOperator .Equality, offset + 1)
      | _ => some (.RelationalOperator .Equality, offset + 1)
    | .And => some (.LogicalOperator .And, offset + 1)
    | .Or => some (.LogicalOperator .Or, offset + 1)
    | .Not => some (.LogicalOperator .Not, offset + 1)
    | .Xor => some (.LogicalOperator .Xor, offset + 1)
    | _ => none
  | _ => none

/-- The disambiguation table of spec section 4.1, written from the spec
words as a function of the token kinds at offset, offset+1 and offset+2;
each row yields the documented operator and the documented token count.
This is the spec-side definition the source resolver is compared with. -/
def resolverTable (k0 k1 k2 : TokenKind) : Option (Operator × Nat) :=
  match k0 with
  | .SymbolToken .Equals =>
    match k1 with
    | .SymbolToken .Equals => some (.RelationalOperator .Equality, 2)
    | _ => some (.AssignmentOperator .SimpleAssignment, 1)
  | .SymbolToken .Plus =>
    match k1 with
    | .SymbolToken .Equals => some (.AssignmentOperator .AdditionAssignment, 2)
    | _ => some (.ArithmeticOperator .Addition, 1)
  | .SymbolToken .Minus =>
    match k1 with
    | .SymbolToken .Equals => some (.AssignmentOperator .SubtractionAssignment, 2)
    | _ => some (.ArithmeticOperator .Subtraction, 1)
  | .SymbolToken .Asterisk =>
    match k1 with
    | .SymbolToken .Equals => some (.AssignmentOperator .MultiplicationAssignment, 2)
    | .SymbolToken .Asterisk =>
      match k2 with
      | .SymbolToken .Equals => some (.AssignmentOperator .ExponentiationAssignment, 3)
      | _ => some (.ArithmeticOperator .Exponentiation, 2)
    | _ => some (.ArithmeticOperator .Multiplication, 1)
  | .SymbolToken .Slash =>
    match k1 with
    | .SymbolToken .Equals => some (.AssignmentOperator .DivisionAssignment, 2)
    | _ => some (.ArithmeticOperator .Division, 1)
  | .SymbolToken .Percent =>
    match k1 with
    | .SymbolToken .Equals => some (.AssignmentOperator .ModuloAssignment, 2)
    | _ => some (.ArithmeticOperator .Modulo, 1)
  | .SymbolToken .Exclamation =>
    match k1 with
    | .SymbolToken .Equals => some (.RelationalOperator .InEquality, 2)
    | _ => some (.LogicalOperator .Not, 1)
  | .SymbolToken .GreaterThan =>
    match k1 with
    | .SymbolToken .Equals => some (.RelationalOperator .GreaterThanOrEquals, 2)
    | _ => some (.RelationalOperator .GreaterThan, 1)
  | .SymbolToken .LessThan =>
    match k1 with
    | .SymbolToken .Equals => some (.RelationalOperator .LessThanOrEquals, 2)
    | _ => some (.RelationalOperator .LessThan, 1)
  | .KeywordToken .Is =>
    match k1 with
    | .KeywordToken .Not => some (.RelationalOperator .InEquality, 2)
    | _ => some (.RelationalOperator .Equality, 1)
  | .KeywordToken .And => some (.LogicalOperator .And, 1)
  | .KeywordToken .Or => some (.LogicalOperator .Or, 1)
  | .KeywordToken .Not => some (.LogicalOperator .Not, 1)
  | .KeywordToken .Xor => some (.LogicalOperator .Xor, 1)
  | _ => none

/-- match_token, from parser.rs lines 43 to 56: if the current token kind
equals the expected kind, consume and return the current token; otherwise
consume nothing and return a fresh FactoryToken (the synthetic missing-token
placeholder) at the current token position. -/
def match_token (kind : TokenKind) (s : PState) : Token × PState :=
  let current_token := s.get_current_token
  if kind = current_token.kind then
    (current_token, s.advance)
  else
    (Token.new .FactoryToken current_token.line current_token.column, s)

/-- The advisory diagnostic text of parser.rs lines 447 and 478 (rendered
without the apostrophe). -/
def redundant_mutable_message : String :=
  "You dont need to use mutable keyword twice, once it is declared as mutable it will be mutable forever"

/-- handle_mutable_assignment, from parser.rs lines 432 to 503.  The source
unwrap calls are modelled as unimplemented (a panic) when the symbol is
absent; they are unreachable because contains_symbol guards them. -/
def handle_mutable_assignment (variable_name : String) (operator : Operator)
    (expression : AbstractSyntaxTree) (s : PState) (block : Block) :
    POut AbstractSyntaxTree :=
  match operator with
  | .AssignmentOperator .SimpleAssignment =>
    if block.contains_symbol variable_name then
      match block.get_symbol variable_name with
      | some old_variable =>
        if old_variable.is_mutable then
          let s := s.add_diag (.Warnings redundant_mutable_message)
          let block := block.add_symbol variable_name
            (Variable.new_mutable .InternalUndefined)
          .ok (.AssignmentExpression variable_name operator expression) s block
        else
          .err .CannotConvertFromImmutableToMutable s block
      | none => .unimplemented "unwrap"
    else
      let block := block.add_symbol variable_name
        (Variable.new_mutable .InternalUndefined)
      .ok (.AssignmentExpression variable_name operator expression) s block
  | .AssignmentOperator _ =>
    if block.contains_symbol variable_name then
      match block.get_symbol variable_name with
      | some old_variable =>
        if old_variable.is_mutable then
          let s := s.add_diag (.Warnings redundant_mutable_message)
          let block := block.add_symbol variable_name
            (Variable.new_mutable .InternalUndefined)
          -- source lines 488 to 491: re-bind from the value the table holds
          -- now, which the insertion just above already replaced
          match block.get_symbol variable_name with
          | some current_variable =>
            let block := block.add_symbol variable_name
              (Variable.new_mutable current_variable.value)
            .ok (.AssignmentExpression variable_name operator expression) s block
          | none => .unimplemented "unwrap"
        else
          .err .CannotConvertFromImmutableToMutable s block
      | none => .unimplemented "unwrap"
    else
      .err (.UndefinedVariable variable_name) s block
  | _ => .err .InvalidOperationAsAssignmentOperation s block

mutual

/-- parse_factor, from parser.rs lines 150 to 184; the nested expression of
a parenthesized factor goes through parse_expression, which is
parse_assignment_expression (parser.rs line 73).  The todo branch for
symbol tokens other than parentheses is modelled as unimplemented. -/
def parse_factor : Nat → PState → Block → POut AbstractSyntaxTree
  | 0, _, _ => .outOfFuel
  | fuel + 1, s, block =>
    let token := s.get_current_token
    let s := s.advance
    match token.kind with
    | .LiteralToken value => .ok (.Literal value) s block
    | .SymbolToken symbol =>
      match symbol with
      | .OpenParanthesis =>
        match parse_assignment_expression fuel s block with
        | .ok expression s block =>
          let next_token := s.get_current_token
          let s := s.advance
          if next_token.kind = .SymbolToken .CloseParanthesis then
            .ok (.ParenthesizedExpression expression) s block
          else
            .err (.UnexpectedToken (.SymbolToken .CloseParanthesis)
              token.line token.column) s block
        | .err e s block => .err e s block
        | .unimplemented m => .unimplemented m
        | .outOfFuel => .outOfFuel
      | .CloseParanthesis =>
        .err (.UnexpectedToken (.SymbolToken .CloseParanthesis)
          token.line token.column) s block
      | _ => .unimplemented "parse_factor"
    | .IdentifierToken name => .ok (.Identifier name) s block
    | kind => .err (.UnexpectedToken kind token.line token.column) s block

/-- parse_arithmetic_expression, from parser.rs lines 117 to 148; the while
loop of lines 135 to 145 is the binary_loop function below. -/
def parse_arithmetic_expression : Nat → Nat → PState → Block → POut AbstractSyntaxTree
  | 0, _, _, _ => .outOfFuel
  | fuel + 1, parent_precedence, s, block =>
    match match_operator s 0 with
    | some (operator, _) =>
      if parent_precedence ≤ operator.get_unery_precedence then
        let s := s.advance
        match parse_arithmetic_expression fuel operator.get_unery_precedence s block with
        | .ok expression s block =>
          binary_loop fuel parent_precedence
            (.UnaryExpression operator expression) s block
        | .err e s block => .err e s block
        | .unimplemented m => .unimplemented m
        | .outOfFuel => .outOfFuel
      else
        match parse_factor fuel s block with
        | .ok left s block => binary_loop fuel parent_precedence left s block
        | .err e s block => .err e s block
        | .unimplemented m => .unimplemented m
        | .outOfFuel => .outOfFuel
    | none =>
      match parse_factor fuel s block with
      | .ok left s block => binary_loop fuel parent_precedence left s block
      | .err e s block => .err e s block
      | .unimplemented m => .unimplemented m
      | .outOfFuel => .outOfFuel

/-- The while loop of parse_arithmetic_expression (parser.rs lines 135 to
145): extend the left-associative chain while the next operator binary
precedence is strictly above the parent precedence floor. -/
def binary_loop : Nat → Nat → AbstractSyntaxTree → PState → Block → POut AbstractSyntaxTree
  | 0, _, _, _, _ => .outOfFuel
  | fuel + 1, parent_precedence, left, s, block =>
    match match_operator s 0 with
    | some (operator, length) =>
      let precedence := operator.get_binary_precedence
      if precedence ≤ parent_precedence then
        .ok left s block
      else
        let s := s.advanceN length
        match parse_arithmetic_expression fuel precedence s block with
        | .ok right s block =>
          binary_loop fuel parent_precedence
            (.BinaryExpression left operator right) s block
        | .err e s block => .err e s block
        | .unimplemented m => .unimplemented m
        | .outOfFuel => .outOfFuel
    | none => .ok left s block

/-- parse_assignment_expression, from parser.rs lines 77 to 115. -/
def parse_assignment_expression : Nat → PState → Block → POut AbstractSyntaxTree
  | 0, _, _ => .outOfFuel
  | fuel + 1, s, block =>
    let identifier_token := s.get_current_token
    match identifier_token.kind with
    | .KeywordToken keyword =>
      match keyword with
      | .Mutable => handle_mutable_keyword fuel s block
      | _ => parse_arithmetic_expression fuel 0 s block
    | .IdentifierToken name =>
      match match_operator s 1 with
      | some (operator, length) =>
        match operator with
        | .AssignmentOperator a =>
          let s := s.advanceN length
          match parse_assignment_expression fuel s block with
          | .ok expression s block =>
            .ok (.AssignmentExpression name (.AssignmentOperator a) expression)
              s block
          | .err e s block => .err e s block
          | .unimplemented m => .unimplemented m
          | .outOfFuel => .outOfFuel
        | _ => parse_arithmetic_expression fuel 0 s block
      | none => parse_arithmetic_expression fuel 0 s block
    | _ => parse_arithmetic_expression fuel 0 s block

/-- handle_mutable_keyword, from parser.rs lines 186 to 211. -/
def handle_mutable_keyword : Nat → PState → Block → POut AbstractSyntaxTree
  | 0, _, _ => .outOfFuel
  | fuel + 1, s, block =>
    match (s.peek 1).kind with
    | .IdentifierToken variable_name =>
      match match_operator s 2 with
      | some (operator, length) =>
        let s := s.advanceN length
        match parse_assignment_expression fuel s block with
        | .ok expression s block =>
          handle_mutable_assignment variable_name operator expression s block
        | .err e s block => .err e s block
        | .unimplemented m => .unimplemented m
        | .outOfFuel => .outOfFuel
      | none =>
        if block.contains_symbol variable_name then
          .err .CannotConvertFromImmutableToMutable s block
        else
          .err (.UnInitializedVariable variable_name) s block
    | _ => .err .InvalidUseOfMutableKeyword s block

end

/-- parse_expression, from parser.rs lines 73 to 75: it delegates to
parse_assignment_expression. -/
def parse_expression (fuel : Nat) (s : PState) (block : Block) :
    POut AbstractSyntaxTree :=
  parse_assignment_expression fuel s block

/-- The statement loop of parse (parser.rs lines 35 to 38): parse
expressions into the global block until the end-of-file token. -/
def parse_statements : Nat → PState → Block → List AbstractSyntaxTree →
    POut (List AbstractSyntaxTree)
  | 0, _, _, _ => .outOfFuel
  | fuel + 1, s, block, statements =>
    if s.get_current_token.kind = .EndOfFileToken then
      .ok statements s block
    else
      match parse_assignment_expression fuel s block with
      | .ok statement s block =>
        parse_statements fuel s block (statements ++ [statement])
      | .err e s block => .err e s block
      | .unimplemented m => .unimplemented m
      | .outOfFuel => .outOfFuel

/-- parse, from parser.rs lines 29 to 41: the tokenize-once step is assumed
done (the token list is the input), then top-level statements are parsed
into a fresh global block; the ok value is the statement list the source
stores into the returned global block. -/
def parse (fuel : Nat) (tokens : List Token) : POut (List AbstractSyntaxTree) :=
  parse_statements fuel { tokens := tokens, pos := 0, diags := [] } Block.new []

/-- The statement loop of parse_block (parser.rs lines 62 to 67). -/
def parse_block_statements : Nat → PState → Block → List AbstractSyntaxTree →
    POut (List AbstractSyntaxTree)
  | 0, _, _, _ => .outOfFuel
  | fuel + 1, s, block, statements =>
    if s.get_current_token.kind = .SymbolToken .CloseCurlyBracket ∨
        s.get_current_token.kind = .EndOfFileToken then
      .ok statements s block
    else
      match parse_assignment_expression fuel s block with
      | .ok statement s block =>
        parse_block_statements fuel s block (statements ++ [statement])
      | .err e s block => .err e s block
      | .unimplemented m => .unimplemented m
      | .outOfFuel => .outOfFuel

/-- parse_block, from parser.rs lines 58 to 71: expect an open brace, parse
statements into a child block of the given parent until a close brace or
end of file, expect the close brace; the ok value is the child block
statement list. -/
def parse_block (fuel : Nat) (parent : Block) (s : PState) :
    POut (List AbstractSyntaxTree) :=
  let s := (match_token (.SymbolToken .OpenCurlyBracket) s).2
  let block := Block.fromParent parent
  match parse_block_statements fuel s block [] with
  | .ok statements s block =>
    let s := (match_token (.SymbolToken .CloseCurlyBracket) s).2
    .ok statements s block
  | .err e s block => .err e s block
  | .unimplemented m => .unimplemented m
  | .outOfFuel => .outOfFuel

/-- Lift a predicate over the block component of an outcome; ok and err
both carry the block out, the other outcomes bind none. -/
def POut.onBlock {α : Type} (P : Block → Prop) : POut α → Prop
  | .ok _ _ b => P b
  | .err _ _ b => P b
  | .unimplemented _ => True
  | .outOfFuel => True

/-- Lift a predicate over the lexer/diagnostics state of a successful
outcome. -/
def POut.okState {α : Type} (P : PState → Prop) : POut α → Prop
  | .ok _ s _ => P s
  | _ => True

/-- Recognize an UnexpectedToken error outcome. -/
def POut.isUnexpectedTokenError {α : Type} : POut α → Bool
  | .err (.UnexpectedToken _ _ _) _ _ => true
  | _ => false

/-- One parsing step relates the incoming block to the outgoing one: every
binding it writes is mutable, and it never removes a binding. -/
def BlockStep (b b' : Block) : Prop :=
  (∀ n v, b'.get_symbol n = some v → v.is_mutable = true ∨ b.get_symbol n = some v) ∧
  (∀ n, (b.get_symbol n).isSome = true → (b'.get_symbol n).isSome = true)

/-- The name is bound, and bound mutable, in the scope chain of the block. -/
def mutableBound (b : Block) (name : String) : Prop :=
  ∃ v, b.get_symbol name = some v ∧ v.is_mutable = true

/-- Concrete-input fixture: a symbol token. -/
def symT (sy : Symbol) : Token := Token.new (.SymbolToken sy) 1 1

/-- Concrete-input fixture: an identifier token. -/
def idT (n : String) : Token := Token.new (.IdentifierToken n) 1 1

/-- Concrete-input fixture: a keyword token. -/
def kwT (k : Keyword) : Token := Token.new (.KeywordToken k) 1 1

/-- Concrete-input fixture: a number-literal token. -/
def litT (n : Nat) : Token := Token.new (.LiteralToken ⟨.Number n, false⟩) 1 1

/-- Concrete-input fixture: the end-of-file token the lexer appends. -/
def eofT : Token := Token.new .EndOfFileToken 1 9

/-- Concrete-input fixture: a parse state at the start of a token list with
an empty diagnostics sink. -/
def initState (ts : List Token) : PState := { tokens := ts, pos := 0, diags := [] }

@[simp]
theorem POut.onBlock_ok {α : Type} (P : Block → Prop) (a : α) (s : PState) (b : Block) :
    (POut.ok a s b).onBlock P = P b := rfl

@[simp]
theorem POut.onBlock_err {α : Type} (P : Block → Prop) (e : CompilerError) (s : PState) (b : Block) :
    (POut.err (α := α) e s b).onBlock P = P b := rfl

@[simp]
theorem POut.onBlock_unimplemented {α : Type} (P : Block → Prop) (m : String) :
    (POut.unimplemented (α := α) m).onBlock P = True := rfl

@[simp]
theorem POut.onBlock_outOfFuel {α : Type} (P : Block → Prop) :
    (POut.outOfFuel (α := α)).onBlock P = True := rfl

@[simp]
theorem POut.okState_ok {α : Type} (P : PState → Prop) (a : α) (s : PState) (b : Block) :
    (POut.ok a s b).okState P = P s := rfl

@[simp]
theorem POut.okState_err {α : Type} (P : PState → Prop) (e : CompilerError) (s : PState) (b : Block) :
    (POut.err (α := α) e s b).okState P = True := rfl

@[simp]
theorem POut.okState_unimplemented {α : Type} (P : PState → Prop) (m : String) :
    (POut.unimplemented (α := α) m).okState P = True := rfl

@[simp]
theorem POut.okState_outOfFuel {α : Type} (P : PState → Prop) :
    (POut.outOfFuel (α := α)).okState P = True := rfl

@[simp]
theorem PState.advance_tokens (s : PState) : s.advance.tokens = s.tokens := rfl

@[simp]
theorem PState.advance_diags (s : PState) : s.advance.diags = s.diags := rfl

@[simp]
theorem PState.advanceN_tokens (s : PState) (n : Nat) :
    (s.advanceN n).tokens = s.tokens := by
  induction n generalizing s with
  | zero => rfl
  | succ n ih => simpa [PState.advanceN] using ih s.advance

@[simp]
theorem PState.advanceN_diags (s : PState) (n : Nat) :
    (s.advanceN n).diags = s.diags := by
  induction n generalizing s with
  | zero => rfl
  | succ n ih => simpa [PState.advanceN] using ih s.advance

theorem PState.pos_le_advance (s : PState) : s.pos ≤ s.advance.pos := by
  unfold PState.advance
  dsimp only
  split <;> omega

theorem PState.advance_pos_le (s : PState) (h : s.pos ≤ s.tokens.length) :
    s.advance.pos ≤ s.tokens.length := by
  unfold PState.advance
  dsimp only
  split <;> omega

theorem PState.advance_pos_of_lt (s : PState) (h : s.pos < s.tokens.length) :
    s.advance.pos = s.pos + 1 := by
  unfold PState.advance
  dsimp only
  rw [if_pos h]

theorem PState.pos_le_advanceN (s : PState) (n : Nat) :
    s.pos ≤ (s.advanceN n).pos := by
  induction n generalizing s with
  | zero => exact Nat.le_refl _
  | succ n ih =>
    calc s.pos ≤ s.advance.pos := s.pos_le_advance
    _ ≤ (s.advance.advanceN n).pos := ih s.advance

theorem PState.advanceN_pos_le (s : PState) (n : Nat)
    (h : s.pos ≤ s.tokens.length) : (s.advanceN n).pos ≤ s.tokens.length := by
  induction n generalizing s with
  | zero => exact h
  | succ n ih =>
    have h1 : s.advance.pos ≤ s.advance.tokens.length := by
      rw [PState.advance_tokens]; exact s.advance_pos_le h
    simpa [PState.advanceN] using ih s.advance (by simpa using h1)

theorem PState.advanceN_pos_of_le (s : PState) (n : Nat)
    (h : s.pos + n ≤ s.tokens.length) : (s.advanceN n).pos = s.pos + n := by
  induction n generalizing s with
  | zero => rfl
  | succ n ih =>
    have hlt : s.pos < s.tokens.length := by omega
    have ha := s.advance_pos_of_lt hlt
    have := ih s.advance (by rw [PState.advance_tokens, ha]; omega)
    rw [PState.advanceN, this, ha]
    omega

theorem PState.peek_ne_eof (s : PState) (k : Nat)
    (h : (s.peek k).kind ≠ .EndOfFileToken) : s.pos + k < s.tokens.length := by
  by_contra hn
  apply h
  unfold PState.peek
  rw [List.getD_eq_default]
  · rfl
  · omega

theorem match_operator_spec (s : PState) (offset : Nat) :
    match_operator s offset =
      Option.map (fun p => (p.1, offset + p.2))
        (resolverTable (s.peek offset).kind (s.peek (offset + 1)).kind
          (s.peek (offset + 2)).kind) := by
  unfold match_operator resolverTable
  cases h0 : (s.peek offset).kind <;> try rfl
  case KeywordToken kw =>
    cases kw <;> try rfl
    case Is =>
      cases h1 : (s.peek (offset + 1)).kind <;> try rfl
      case KeywordToken kw2 => cases kw2 <;> rfl
  case SymbolToken sym =>
    cases sym <;> try rfl
    case Equals =>
      cases h1 : (s.peek (offset + 1)).kind <;> try rfl
      case SymbolToken s2 => cases s2 <;> rfl
    case Plus =>
      cases h1 : (s.peek (offset + 1)).kind <;> try rfl
      case SymbolToken s2 => cases s2 <;> rfl
    case Minus =>
      cases h1 : (s.peek (offset + 1)).kind <;> try rfl
      case SymbolToken s2 => cases s2 <;> rfl
    case Asterisk =>
      cases h1 : (s.peek (offset + 1)).kind <;> try rfl
      case SymbolToken s2 =>
        cases s2 <;> try rfl
        case Asterisk =>
          cases h2 : (s.peek (offset + 2)).kind <;> try rfl
          case SymbolToken s3 => cases s3 <;> rfl
    case Slash =>
      cases h1 : (s.peek (offset + 1)).kind <;> try rfl
      case SymbolToken s2 => cases s2 <;> rfl
    case Percent =>
      cases h1 : (s.peek (offset + 1)).kind <;> try rfl
      case SymbolToken s2 => cases s2 <;> rfl
    case Exclamation =>
      cases h1 : (s.peek (offset + 1)).kind <;> try rfl
      case SymbolToken s2 => cases s2 <;> rfl
    case GreaterThan =>
      cases h1 : (s.peek (offset + 1)).kind <;> try rfl
      case SymbolToken s2 => cases s2 <;> rfl
    case LessThan =>
      cases h1 : (s.peek (offset + 1)).kind <;> try rfl
      case SymbolToken s2 => cases s2 <;> rfl

theorem PState.advanceN_pos_min (s : PState) (n : Nat) (h : s.pos ≤ s.tokens.length) :
    (s.advanceN n).pos = min (s.pos + n) s.tokens.length := by
  induction n generalizing s with
  | zero => simp [PState.advanceN]; omega
  | succ n ih =>
    rw [PState.advanceN]
    rcases Nat.lt_or_ge s.pos s.tokens.length with hlt | hge
    · rw [ih s.advance (by rw [PState.advance_tokens]; exact s.advance_pos_le h)]
      rw [s.advance_pos_of_lt hlt, PState.advance_tokens]
      omega
    · have heq : s.pos = s.tokens.length := Nat.le_antisymm h hge
      have hadv : s.advance.pos = s.pos := by
        unfold PState.advance
        dsimp only
        rw [if_neg (by omega)]
      rw [ih s.advance (by rw [PState.advance_tokens, hadv]; exact h)]
      rw [hadv, PState.advance_tokens]
      omega

theorem resolverTable_some (k0 k1 k2 : TokenKind) (op : Operator) (c : Nat)
    (h : resolverTable k0 k1 k2 = some (op, c)) :
    1 ≤ c ∧ k0 ≠ .EndOfFileToken := by
  unfold resolverTable at h
  repeat' split at h
  all_goals cases h
  all_goals exact ⟨by omega, by simp⟩

theorem match_operator_some (s : PState) (offset : Nat) (op : Operator) (L : Nat)
    (h : match_operator s offset = some (op, L)) :
    offset + 1 ≤ L ∧ s.pos + offset < s.tokens.length := by
  have hspec := match_operator_spec s offset
  rw [h] at hspec
  cases ht : resolverTable (s.peek offset).kind (s.peek (offset + 1)).kind
      (s.peek (offset + 2)).kind with
  | none => rw [ht] at hspec; simp at hspec
  | some p =>
    obtain ⟨op0, c⟩ := p
    rw [ht] at hspec
    simp only [Option.map_some', Option.some.injEq, Prod.mk.injEq] at hspec
    obtain ⟨h1, h2⟩ := hspec
    obtain ⟨hc, hk0⟩ := resolverTable_some _ _ _ _ _ ht
    refine ⟨by omega, ?_⟩
    have := s.peek_ne_eof offset hk0
    omega

theorem POut.okState_imp {α : Type} {P Q : PState → Prop} (r : POut α)
    (h : r.okState P) (himp : ∀ s, P s → Q s) : r.okState Q := by
  cases r <;> simp only [POut.okState] at h ⊢ <;> try trivial
  exact himp _ h

theorem handle_mutable_assignment_tokens (n : String) (op : Operator)
    (e : AbstractSyntaxTree) (s : PState) (b : Block) :
    (handle_mutable_assignment n op e s b).okState (fun s1 => s1.tokens = s.tokens) := by
  unfold handle_mutable_assignment
  repeat' split
  all_goals simp [POut.okState, PState.add_diag, Block.get_symbol, Block.add_symbol,
    lookupName]

theorem tokens_all (fuel : Nat) :
    (∀ s b, (parse_factor fuel s b).okState (fun s1 => s1.tokens = s.tokens)) ∧
    (∀ p s b, (parse_arithmetic_expression fuel p s b).okState
      (fun s1 => s1.tokens = s.tokens)) ∧
    (∀ p l s b, (binary_loop fuel p l s b).okState (fun s1 => s1.tokens = s.tokens)) ∧
    (∀ s b, (parse_assignment_expression fuel s b).okState
      (fun s1 => s1.tokens = s.tokens)) ∧
    (∀ s b, (handle_mutable_keyword fuel s b).okState (fun s1 => s1.tokens = s.tokens)) := by
  induction fuel with
  | zero =>
    refine ⟨?_, ?_, ?_, ?_, ?_⟩ <;> intros <;>
      simp [parse_factor, parse_arithmetic_expression, binary_loop,
        parse_assignment_expression, handle_mutable_keyword, POut.okState]
  | succ fuel ih =>
    obtain ⟨ihf, iha, ihl, ihs, ihm⟩ := ih
    refine ⟨?_, ?_, ?_, ?_, ?_⟩
    · -- parse_factor
      intro s b
      simp only [parse_factor]
      cases hk : (s.get_current_token).kind <;> simp only [POut.okState] <;> try trivial
      case SymbolToken sym =>
        cases sym <;> simp only [POut.okState] <;> try trivial
        case OpenParanthesis =>
          cases hq : parse_assignment_expression fuel s.advance b <;>
            simp only [POut.okState] <;> try trivial
          case ok e s1 b1 =>
            have ht := ihs s.advance b
            rw [hq] at ht
            simp only [POut.okState, PState.advance_tokens] at ht
            by_cases hc : (s1.get_current_token).kind = .SymbolToken .CloseParanthesis
            · rw [if_pos hc]
              simp [POut.okState, ht]
            · rw [if_neg hc]
              simp [POut.okState]
    · -- parse_arithmetic_expression
      intro p s b
      simp only [parse_arithmetic_expression]
      cases hmo : match_operator s 0 with
      | none =>
        cases hf : parse_factor fuel s b <;> simp only [POut.okState] <;> try trivial
        case ok left s1 b1 =>
          have ht := ihf s b
          rw [hf] at ht
          simp only [POut.okState] at ht
          exact POut.okState_imp _ (ihl p left s1 b1) (fun s2 h2 => by rw [h2, ht])
      | some pr =>
        obtain ⟨operator, len⟩ := pr
        dsimp only
        by_cases hpre : p ≤ operator.get_unery_precedence
        · rw [if_pos hpre]
          cases ha : parse_arithmetic_expression fuel operator.get_unery_precedence
              s.advance b <;> simp only [POut.okState] <;> try trivial
          rename_i e s1 b1
          · have ht := iha operator.get_unery_precedence s.advance b
            rw [ha] at ht
            simp only [POut.okState, PState.advance_tokens] at ht
            exact POut.okState_imp _ (ihl p _ s1 b1) (fun s2 h2 => by rw [h2, ht])
        · rw [if_neg hpre]
          cases hf : parse_factor fuel s b <;> simp only [POut.okState] <;> try trivial
          rename_i left s1 b1
          · have ht := ihf s b
            rw [hf] at ht
            simp only [POut.okState] at ht
            exact POut.okState_imp _ (ihl p left s1 b1) (fun s2 h2 => by rw [h2, ht])
    · -- binary_loop
      intro p l s b
      simp only [binary_loop]
      cases hmo : match_operator s 0 with
      | none => simp only [POut.okState]
      | some pr =>
        obtain ⟨operator, len⟩ := pr
        dsimp only
        by_cases hpre : operator.get_binary_precedence ≤ p
        · rw [if_pos hpre]
          simp only [POut.okState]
        · rw [if_neg hpre]
          cases ha : parse_arithmetic_expression fuel operator.get_binary_precedence
              (s.advanceN len) b <;> simp only [POut.okState] <;> try trivial
          rename_i right s1 b1
          · have ht := iha operator.get_binary_precedence (s.advanceN len) b
            rw [ha] at ht
            simp only [POut.okState, PState.advanceN_tokens] at ht
            exact POut.okState_imp _ (ihl p _ s1 b1) (fun s2 h2 => by rw [h2, ht])
    · -- parse_assignment_expression
      intro s b
      simp only [parse_assignment_expression]
      cases hk : (s.get_current_token).kind <;> simp only [POut.okState] <;>
        try exact iha 0 s b
      case KeywordToken kw =>
        cases kw <;> simp only [POut.okState] <;> try exact iha 0 s b
        case Mutable => exact ihm s b
      case IdentifierToken name =>
        cases hmo : match_operator s 1 with
        | none => exact iha 0 s b
        | some pr =>
          obtain ⟨operator, len⟩ := pr
          simp only [POut.okState]
          cases operator <;> simp only [POut.okState] <;> try exact iha 0 s b
          case AssignmentOperator a =>
            cases hq : parse_assignment_expression fuel (s.advanceN len) b <;>
              simp only [POut.okState] <;> try trivial
            case ok e s1 b1 =>
              have ht := ihs (s.advanceN len) b
              rw [hq] at ht
              simp only [POut.okState, PState.advanceN_tokens] at ht
              exact ht
    · -- handle_mutable_keyword
      intro s b
      simp only [handle_mutable_keyword]
      cases hk : (s.peek 1).kind <;> simp only [POut.okState] <;> try trivial
      case IdentifierToken vn =>
        cases hmo : match_operator s 2 with
        | none =>
          dsimp only
          by_cases hc : b.contains_symbol vn = true
          · rw [if_pos hc]
            simp [POut.okState]
          · rw [if_neg hc]
            simp [POut.okState]
        | some pr =>
          obtain ⟨operator, len⟩ := pr
          simp only [POut.okState]
          cases hq : parse_assignment_expression fuel (s.advanceN len) b <;>
            simp only [POut.okState] <;> try trivial
          case ok e s1 b1 =>
            have ht := ihs (s.advanceN len) b
            rw [hq] at ht
            simp only [POut.okState, PState.advanceN_tokens] at ht
            exact POut.okState_imp _
              (handle_mutable_assignment_tokens vn operator e s1 b1)
              (fun s2 h2 => by rw [h2, ht])

theorem PState.current_kind_lt (s : PState) (k : TokenKind)
    (hk : s.get_current_token.kind = k) (hne : k ≠ .EndOfFileToken) :
    s.pos < s.tokens.length := by
  have := s.peek_ne_eof 0 (by rw [show s.peek 0 = s.get_current_token from rfl, hk]; exact hne)
  omega

theorem handle_mutable_assignment_pos (n : String) (op : Operator)
    (e : AbstractSyntaxTree) (s : PState) (b : Block) :
    (handle_mutable_assignment n op e s b).okState (fun s1 => s1.pos = s.pos) := by
  unfold handle_mutable_assignment
  repeat' split
  all_goals simp [POut.okState, PState.add_diag, Block.get_symbol, Block.add_symbol,
    lookupName]

theorem progress_all (fuel : Nat) :
    (∀ s b, s.pos ≤ s.tokens.length → (parse_factor fuel s b).okState
      (fun s1 => s.pos + 1 ≤ s1.pos ∧ s1.pos ≤ s.tokens.length)) ∧
    (∀ p s b, s.pos ≤ s.tokens.length → (parse_arithmetic_expression fuel p s b).okState
      (fun s1 => s.pos + 1 ≤ s1.pos ∧ s1.pos ≤ s.tokens.length)) ∧
    (∀ p l s b, s.pos ≤ s.tokens.length → (binary_loop fuel p l s b).okState
      (fun s1 => s.pos ≤ s1.pos ∧ s1.pos ≤ s.tokens.length)) ∧
    (∀ s b, s.pos ≤ s.tokens.length → (parse_assignment_expression fuel s b).okState
      (fun s1 => s.pos + 1 ≤ s1.pos ∧ s1.pos ≤ s.tokens.length)) ∧
    (∀ s b, s.pos ≤ s.tokens.length → (handle_mutable_keyword fuel s b).okState
      (fun s1 => s.pos + 1 ≤ s1.pos ∧ s1.pos ≤ s.tokens.length)) := by
  induction fuel with
  | zero =>
    refine ⟨?_, ?_, ?_, ?_, ?_⟩ <;> intros <;>
      simp [parse_factor, parse_arithmetic_expression, binary_loop,
        parse_assignment_expression, handle_mutable_keyword, POut.okState]
  | succ fuel ih =>
    obtain ⟨ihf, iha, ihl, ihs, ihm⟩ := ih
    refine ⟨?_, ?_, ?_, ?_, ?_⟩
    · -- parse_factor
      intro s b hle
      simp only [parse_factor]
      cases hk : (s.get_current_token).kind <;> simp only [POut.okState] <;> try trivial
      case LiteralToken v =>
        have hlt := s.current_kind_lt _ hk (by simp)
        rw [s.advance_pos_of_lt hlt]
        omega
      case IdentifierToken name =>
        have hlt := s.current_kind_lt _ hk (by simp)
        rw [s.advance_pos_of_lt hlt]
        omega
      case SymbolToken sym =>
        cases sym <;> simp only [POut.okState] <;> try trivial
        case OpenParanthesis =>
          have hlt := s.current_kind_lt _ hk (by simp)
          have hadv : s.advance.pos = s.pos + 1 := s.advance_pos_of_lt hlt
          have hle1 : s.advance.pos ≤ s.advance.tokens.length := by
            rw [PState.advance_tokens]
            exact s.advance_pos_le hle
          cases hq : parse_assignment_expression fuel s.advance b <;>
            simp only [POut.okState] <;> try trivial
          rename_i e s1 b1
          · have htok := (tokens_all fuel).2.2.2.1 s.advance b
            rw [hq] at htok
            simp only [POut.okState, PState.advance_tokens] at htok
            have hprog := ihs s.advance b hle1
            rw [hq] at hprog
            simp only [POut.okState, PState.advance_tokens] at hprog
            have hlt1 : s1.pos ≤ s1.tokens.length := by rw [htok]; exact hprog.2
            by_cases hc : (s1.get_current_token).kind = .SymbolToken .CloseParanthesis
            · rw [if_pos hc]
              simp only [POut.okState]
              have h1 := s1.advance_pos_le hlt1
              have h2 := s1.pos_le_advance
              rw [htok] at h1
              constructor <;> omega
            · rw [if_neg hc]
              trivial
    · -- parse_arithmetic_expression
      intro p s b hle
      simp only [parse_arithmetic_expression]
      cases hmo : match_operator s 0 with
      | none =>
        cases hf : parse_factor fuel s b <;> simp only [POut.okState] <;> try trivial
        rename_i left s1 b1
        · have htok := (tokens_all fuel).1 s b
          rw [hf] at htok
          simp only [POut.okState] at htok
          have hprog := ihf s b hle
          rw [hf] at hprog
          simp only [POut.okState] at hprog
          have hloop := ihl p left s1 b1 (by rw [htok]; exact hprog.2)
          exact POut.okState_imp _ hloop (fun s2 h2 => by rw [htok] at h2; omega)
      | some pr =>
        obtain ⟨operator, len⟩ := pr
        dsimp only
        by_cases hpre : p ≤ operator.get_unery_precedence
        · rw [if_pos hpre]
          obtain ⟨-, hlt⟩ := match_operator_some s 0 operator len hmo
          have hadv : s.advance.pos = s.pos + 1 := s.advance_pos_of_lt (by omega)
          have hle1 : s.advance.pos ≤ s.advance.tokens.length := by
            rw [PState.advance_tokens]
            exact s.advance_pos_le hle
          cases ha : parse_arithmetic_expression fuel operator.get_unery_precedence
              s.advance b <;> simp only [POut.okState] <;> try trivial
          rename_i e s1 b1
          · have htok := (tokens_all fuel).2.1 operator.get_unery_precedence s.advance b
            rw [ha] at htok
            simp only [POut.okState, PState.advance_tokens] at htok
            have hprog := iha operator.get_unery_precedence s.advance b hle1
            rw [ha] at hprog
            simp only [POut.okState, PState.advance_tokens] at hprog
            have hloop := ihl p (.UnaryExpression operator e) s1 b1
              (by rw [htok]; exact hprog.2)
            refine POut.okState_imp _ hloop (fun s2 h2 => ?_)
            rw [htok] at h2
            rw [hadv] at hprog
            constructor <;> omega
        · rw [if_neg hpre]
          cases hf : parse_factor fuel s b <;> simp only [POut.okState] <;> try trivial
          rename_i left s1 b1
          · have htok := (tokens_all fuel).1 s b
            rw [hf] at htok
            simp only [POut.okState] at htok
            have hprog := ihf s b hle
            rw [hf] at hprog
            simp only [POut.okState] at hprog
            have hloop := ihl p left s1 b1 (by rw [htok]; exact hprog.2)
            exact POut.okState_imp _ hloop (fun s2 h2 => by rw [htok] at h2; omega)
    · -- binary_loop
      intro p l s b hle
      simp only [binary_loop]
      cases hmo : match_operator s 0 with
      | none => simp only [POut.okState]; omega
      | some pr =>
        obtain ⟨operator, len⟩ := pr
        dsimp only
        by_cases hpre : operator.get_binary_precedence ≤ p
        · rw [if_pos hpre]
          simp only [POut.okState]
          omega
        · rw [if_neg hpre]
          obtain ⟨hlen, hlt⟩ := match_operator_some s 0 operator len hmo
          have hmin := s.advanceN_pos_min len hle
          have hleN : (s.advanceN len).pos ≤ (s.advanceN len).tokens.length := by
            rw [PState.advanceN_tokens]
            exact s.advanceN_pos_le len hle
          cases ha : parse_arithmetic_expression fuel operator.get_binary_precedence
              (s.advanceN len) b <;> simp only [POut.okState] <;> try trivial
          rename_i right s1 b1
          · have htok := (tokens_all fuel).2.1 operator.get_binary_precedence
              (s.advanceN len) b
            rw [ha] at htok
            simp only [POut.okState, PState.advanceN_tokens] at htok
            have hprog := iha operator.get_binary_precedence (s.advanceN len) b hleN
            rw [ha] at hprog
            simp only [POut.okState, PState.advanceN_tokens] at hprog
            have hloop := ihl p (.BinaryExpression l operator right) s1 b1
              (by rw [htok]; exact hprog.2)
            refine POut.okState_imp _ hloop (fun s2 h2 => ?_)
            rw [htok] at h2
            constructor <;> omega
    · -- parse_assignment_expression
      intro s b hle
      simp only [parse_assignment_expression]
      cases hk : (s.get_current_token).kind <;> simp only [POut.okState] <;>
        try exact iha 0 s b hle
      case KeywordToken kw =>
        cases kw <;> simp only [POut.okState] <;> try exact iha 0 s b hle
        case Mutable => exact ihm s b hle
      case IdentifierToken name =>
        cases hmo : match_operator s 1 with
        | none => exact iha 0 s b hle
        | some pr =>
          obtain ⟨operator, len⟩ := pr
          dsimp only
          cases operator <;> simp only [POut.okState] <;> try exact iha 0 s b hle
          case AssignmentOperator a =>
            obtain ⟨hlen, hlt⟩ := match_operator_some s 1 (.AssignmentOperator a) len hmo
            have hmin := s.advanceN_pos_min len hle
            have hleN : (s.advanceN len).pos ≤ (s.advanceN len).tokens.length := by
              rw [PState.advanceN_tokens]
              exact s.advanceN_pos_le len hle
            cases hq : parse_assignment_expression fuel (s.advanceN len) b <;>
              simp only [POut.okState] <;> try trivial
            rename_i e s1 b1
            · have hprog := ihs (s.advanceN len) b hleN
              rw [hq] at hprog
              simp only [POut.okState, PState.advanceN_tokens] at hprog
              constructor <;> omega
    · -- handle_mutable_keyword
      intro s b hle
      simp only [handle_mutable_keyword]
      cases hk : (s.peek 1).kind <;> simp only [POut.okState] <;> try trivial
      case IdentifierToken vn =>
        cases hmo : match_operator s 2 with
        | none =>
          dsimp only
          by_cases hc : b.contains_symbol vn = true
          · rw [if_pos hc]
            simp [POut.okState]
          · rw [if_neg hc]
            simp [POut.okState]
        | some pr =>
          obtain ⟨operator, len⟩ := pr
          dsimp only
          obtain ⟨hlen, hlt⟩ := match_operator_some s 2 operator len hmo
          have hmin := s.advanceN_pos_min len hle
          have hleN : (s.advanceN len).pos ≤ (s.advanceN len).tokens.length := by
            rw [PState.advanceN_tokens]
            exact s.advanceN_pos_le len hle
          cases hq : parse_assignment_expression fuel (s.advanceN len) b <;>
            simp only [POut.okState] <;> try trivial
          rename_i e s1 b1
          · have hprog := ihs (s.advanceN len) b hleN
            rw [hq] at hprog
            simp only [POut.okState, PState.advanceN_tokens] at hprog
            have hma := handle_mutable_assignment_pos vn operator e s1 b1
            have hmat := handle_mutable_assignment_tokens vn operator e s1 b1
            have htok := (tokens_all fuel).2.2.2.1 (s.advanceN len) b
            rw [hq] at htok
            simp only [POut.okState, PState.advanceN_tokens] at htok
            have hcomb : (handle_mutable_assignment vn operator e s1 b1).okState
                (fun s2 => s2.pos = s1.pos) := hma
            refine POut.okState_imp _ hcomb (fun s2 h2 => ?_)
            rw [h2]
            constructor <;> omega

theorem handle_mutable_assignment_ne_oof (n : String) (op : Operator)
    (e : AbstractSyntaxTree) (s : PState) (b : Block) :
    handle_mutable_assignment n op e s b ≠ .outOfFuel := by
  unfold handle_mutable_assignment
  repeat' split
  all_goals simp [Block.get_symbol, Block.add_symbol, lookupName]

theorem fuel_all (fuel : Nat) :
    (∀ s b, s.pos ≤ s.tokens.length →
      3 * (s.tokens.length - s.pos) + 2 ≤ fuel →
      parse_factor fuel s b ≠ .outOfFuel) ∧
    (∀ p s b, s.pos ≤ s.tokens.length →
      3 * (s.tokens.length - s.pos) + 3 ≤ fuel →
      parse_arithmetic_expression fuel p s b ≠ .outOfFuel) ∧
    (∀ p l s b, s.pos ≤ s.tokens.length →
      3 * (s.tokens.length - s.pos) + 3 ≤ fuel →
      binary_loop fuel p l s b ≠ .outOfFuel) ∧
    (∀ s b, s.pos ≤ s.tokens.length →
      3 * (s.tokens.length - s.pos) + 4 ≤ fuel →
      parse_assignment_expression fuel s b ≠ .outOfFuel) ∧
    (∀ s b, s.pos ≤ s.tokens.length →
      3 * (s.tokens.length - s.pos) + 3 ≤ fuel →
      handle_mutable_keyword fuel s b ≠ .outOfFuel) := by
  induction fuel with
  | zero =>
    refine ⟨?_, ?_, ?_, ?_, ?_⟩ <;> intros <;> omega
  | succ fuel ih =>
    obtain ⟨ihf, iha, ihl, ihs, ihm⟩ := ih
    refine ⟨?_, ?_, ?_, ?_, ?_⟩
    · -- parse_factor
      intro s b hle hfuel
      simp only [parse_factor]
      cases hk : (s.get_current_token).kind <;> try simp
      case SymbolToken sym =>
        cases sym <;> try simp
        case OpenParanthesis =>
          have hlt := s.current_kind_lt _ hk (by simp)
          have hle1 : s.advance.pos ≤ s.advance.tokens.length := by
            rw [PState.advance_tokens]
            exact s.advance_pos_le hle
          have hadv : s.advance.pos = s.pos + 1 := s.advance_pos_of_lt hlt
          cases hq : parse_assignment_expression fuel s.advance b with
          | ok e s1 b1 =>
            dsimp only
            split <;> simp
          | err e s1 b1 => simp
          | unimplemented m => simp
          | outOfFuel =>
            exact absurd hq (ihs s.advance b hle1
              (by rw [PState.advance_tokens, hadv]; omega))
    · -- parse_arithmetic_expression
      intro p s b hle hfuel
      simp only [parse_arithmetic_expression]
      cases hmo : match_operator s 0 with
      | none =>
        cases hf : parse_factor fuel s b with
        | ok left s1 b1 =>
          have htok := (tokens_all fuel).1 s b
          rw [hf] at htok
          simp only [POut.okState] at htok
          have hprog := (progress_all fuel).1 s b hle
          rw [hf] at hprog
          simp only [POut.okState] at hprog
          exact ihl p left s1 b1 (by rw [htok]; exact hprog.2)
            (by rw [htok]; omega)
        | err e s1 b1 => simp
        | unimplemented m => simp
        | outOfFuel => exact absurd hf (ihf s b hle (by omega))
      | some pr =>
        obtain ⟨operator, len⟩ := pr
        dsimp only
        by_cases hpre : p ≤ operator.get_unery_precedence
        · rw [if_pos hpre]
          obtain ⟨-, hlt⟩ := match_operator_some s 0 operator len hmo
          have hle1 : s.advance.pos ≤ s.advance.tokens.length := by
            rw [PState.advance_tokens]
            exact s.advance_pos_le hle
          have hadv : s.advance.pos = s.pos + 1 := s.advance_pos_of_lt (by omega)
          cases ha : parse_arithmetic_expression fuel operator.get_unery_precedence
              s.advance b with
          | ok e s1 b1 =>
            have htok := (tokens_all fuel).2.1 operator.get_unery_precedence s.advance b
            rw [ha] at htok
            simp only [POut.okState, PState.advance_tokens] at htok
            have hprog := (progress_all fuel).2.1 operator.get_unery_precedence
              s.advance b hle1
            rw [ha] at hprog
            simp only [POut.okState, PState.advance_tokens] at hprog
            rw [hadv] at hprog
            exact ihl p (.UnaryExpression operator e) s1 b1 (by rw [htok]; exact hprog.2)
              (by rw [htok]; omega)
          | err e s1 b1 => simp
          | unimplemented m => simp
          | outOfFuel =>
            exact absurd ha (iha operator.get_unery_precedence s.advance b hle1
              (by rw [PState.advance_tokens, hadv]; omega))
        · rw [if_neg hpre]
          cases hf : parse_factor fuel s b with
          | ok left s1 b1 =>
            have htok := (tokens_all fuel).1 s b
            rw [hf] at htok
            simp only [POut.okState] at htok
            have hprog := (progress_all fuel).1 s b hle
            rw [hf] at hprog
            simp only [POut.okState] at hprog
            exact ihl p left s1 b1 (by rw [htok]; exact hprog.2)
              (by rw [htok]; omega)
          | err e s1 b1 => simp
          | unimplemented m => simp
          | outOfFuel => exact absurd hf (ihf s b hle (by omega))
    · -- binary_loop
      intro p l s b hle hfuel
      simp only [binary_loop]
      cases hmo : match_operator s 0 with
      | none => simp
      | some pr =>
        obtain ⟨operator, len⟩ := pr
        dsimp only
        by_cases hpre : operator.get_binary_precedence ≤ p
        · rw [if_pos hpre]
          simp
        · rw [if_neg hpre]
          obtain ⟨hlen, hlt⟩ := match_operator_some s 0 operator len hmo
          have hmin := s.advanceN_pos_min len hle
          have hleN : (s.advanceN len).pos ≤ (s.advanceN len).tokens.length := by
            rw [PState.advanceN_tokens]
            exact s.advanceN_pos_le len hle
          cases ha : parse_arithmetic_expression fuel operator.get_binary_precedence
              (s.advanceN len) b with
          | ok right s1 b1 =>
            have htok := (tokens_all fuel).2.1 operator.get_binary_precedence
              (s.advanceN len) b
            rw [ha] at htok
            simp only [POut.okState, PState.advanceN_tokens] at htok
            have hprog := (progress_all fuel).2.1 operator.get_binary_precedence
              (s.advanceN len) b hleN
            rw [ha] at hprog
            simp only [POut.okState, PState.advanceN_tokens] at hprog
            exact ihl p (.BinaryExpression l operator right) s1 b1
              (by rw [htok]; exact hprog.2) (by rw [htok]; omega)
          | err e s1 b1 => simp
          | unimplemented m => simp
          | outOfFuel =>
            exact absurd ha (iha operator.get_binary_precedence (s.advanceN len) b hleN
              (by rw [PState.advanceN_tokens]; omega))
    · -- parse_assignment_expression
      intro s b hle hfuel
      simp only [parse_assignment_expression]
      cases hk : (s.get_current_token).kind <;> try exact iha 0 s b hle (by omega)
      case KeywordToken kw =>
        cases kw <;> try exact iha 0 s b hle (by omega)
        case Mutable => exact ihm s b hle (by omega)
      case IdentifierToken name =>
        cases hmo : match_operator s 1 with
        | none => exact iha 0 s b hle (by omega)
        | some pr =>
          obtain ⟨operator, len⟩ := pr
          dsimp only
          cases operator <;> try exact iha 0 s b hle (by omega)
          case AssignmentOperator a =>
            obtain ⟨hlen, hlt⟩ := match_operator_some s 1 (.AssignmentOperator a) len hmo
            have hmin := s.advanceN_pos_min len hle
            have hleN : (s.advanceN len).pos ≤ (s.advanceN len).tokens.length := by
              rw [PState.advanceN_tokens]
              exact s.advanceN_pos_le len hle
            cases hq : parse_assignment_expression fuel (s.advanceN len) b with
            | ok e s1 b1 => simp
            | err e s1 b1 => simp
            | unimplemented m => simp
            | outOfFuel =>
              exact absurd hq (ihs (s.advanceN len) b hleN
                (by rw [PState.advanceN_tokens]; omega))
    · -- handle_mutable_keyword
      intro s b hle hfuel
      simp only [handle_mutable_keyword]
      cases hk : (s.peek 1).kind <;> try simp
      case IdentifierToken vn =>
        cases hmo : match_operator s 2 with
        | none =>
          dsimp only
          by_cases hc : b.contains_symbol vn = true
          · rw [if_pos hc]
            simp
          · rw [if_neg hc]
            simp
        | some pr =>
          obtain ⟨operator, len⟩ := pr
          dsimp only
          obtain ⟨hlen, hlt⟩ := match_operator_some s 2 operator len hmo
          have hmin := s.advanceN_pos_min len hle
          have hleN : (s.advanceN len).pos ≤ (s.advanceN len).tokens.length := by
            rw [PState.advanceN_tokens]
            exact s.advanceN_pos_le len hle
          cases hq : parse_assignment_expression fuel (s.advanceN len) b with
          | ok e s1 b1 => exact handle_mutable_assignment_ne_oof vn operator e s1 b1
          | err e s1 b1 => simp
          | unimplemented m => simp
          | outOfFuel =>
            exact absurd hq (ihs (s.advanceN len) b hleN
              (by rw [PState.advanceN_tokens]; omega))

theorem parse_statements_ne_oof (fuel : Nat) :
    ∀ s b acc, s.pos ≤ s.tokens.length →
      3 * (s.tokens.length - s.pos) + 6 ≤ fuel →
      parse_statements fuel s b acc ≠ .outOfFuel := by
  induction fuel with
  | zero => intro s b acc hle hfuel; omega
  | succ fuel ih =>
    intro s b acc hle hfuel
    simp only [parse_statements]
    by_cases he : s.get_current_token.kind = .EndOfFileToken
    · rw [if_pos he]
      simp
    · rw [if_neg he]
      have hlt : s.pos < s.tokens.length := s.current_kind_lt _ rfl he
      cases hq : parse_assignment_expression fuel s b with
      | ok st s1 b1 =>
        have htok := (tokens_all fuel).2.2.2.1 s b
        rw [hq] at htok
        simp only [POut.okState] at htok
        have hprog := (progress_all fuel).2.2.2.1 s b hle
        rw [hq] at hprog
        simp only [POut.okState] at hprog
        exact ih s1 b1 (acc ++ [st]) (by rw [htok]; exact hprog.2) (by rw [htok]; omega)
      | err e s1 b1 => simp
      | unimplemented m => simp
      | outOfFuel => exact absurd hq ((fuel_all fuel).2.2.2.1 s b hle (by omega))

theorem parse_block_statements_ne_oof (fuel : Nat) :
    ∀ s b acc, s.pos ≤ s.tokens.length →
      3 * (s.tokens.length - s.pos) + 6 ≤ fuel →
      parse_block_statements fuel s b acc ≠ .outOfFuel := by
  induction fuel with
  | zero => intro s b acc hle hfuel; omega
  | succ fuel ih =>
    intro s b acc hle hfuel
    simp only [parse_block_statements]
    by_cases he : s.get_current_token.kind = .SymbolToken .CloseCurlyBracket ∨
        s.get_current_token.kind = .EndOfFileToken
    · rw [if_pos he]
      simp
    · rw [if_neg he]
      have hne : s.get_current_token.kind ≠ .EndOfFileToken := by
        intro hc
        exact he (Or.inr hc)
      have hlt : s.pos < s.tokens.length := s.current_kind_lt _ rfl hne
      cases hq : parse_assignment_expression fuel s b with
      | ok st s1 b1 =>
        have htok := (tokens_all fuel).2.2.2.1 s b
        rw [hq] at htok
        simp only [POut.okState] at htok
        have hprog := (progress_all fuel).2.2.2.1 s b hle
        rw [hq] at hprog
        simp only [POut.okState] at hprog
        exact ih s1 b1 (acc ++ [st]) (by rw [htok]; exact hprog.2) (by rw [htok]; omega)
      | err e s1 b1 => simp
      | unimplemented m => simp
      | outOfFuel => exact absurd hq ((fuel_all fuel).2.2.2.1 s b hle (by omega))

theorem match_token_snd (k : TokenKind) (s : PState) :
    (match_token k s).2 = s.advance ∨ (match_token k s).2 = s := by
  unfold match_token
  dsimp only
  split
  · left
    rfl
  · right
    rfl

theorem parse_block_ne_oof (fuel : Nat) (parent : Block) (s : PState)
    (hle : s.pos ≤ s.tokens.length)
    (hfuel : 3 * (s.tokens.length - s.pos) + 6 ≤ fuel) :
    parse_block fuel parent s ≠ .outOfFuel := by
  unfold parse_block
  dsimp only
  have hs1 := match_token_snd (.SymbolToken .OpenCurlyBracket) s
  set s1 := (match_token (.SymbolToken .OpenCurlyBracket) s).2 with hdef
  have hle1 : s1.pos ≤ s1.tokens.length ∧ s1.tokens = s.tokens ∧ s.pos ≤ s1.pos := by
    rcases hs1 with h | h <;> rw [h]
    · exact ⟨by rw [PState.advance_tokens]; exact s.advance_pos_le hle,
        PState.advance_tokens s, s.pos_le_advance⟩
    · exact ⟨hle, rfl, Nat.le_refl _⟩
  cases hq : parse_block_statements fuel s1 (Block.fromParent parent) [] with
  | ok st s2 b2 => simp
  | err e s2 b2 => simp
  | unimplemented m => simp
  | outOfFuel =>
    refine absurd hq (parse_block_statements_ne_oof fuel s1 (Block.fromParent parent) []
      hle1.1 ?_)
    rw [hle1.2.1]
    have := hle1.2.2
    omega

theorem BlockStep.refl (b : Block) : BlockStep b b :=
  ⟨fun _ _ h => Or.inr h, fun _ h => h⟩

theorem BlockStep.trans {a b c : Block} (h1 : BlockStep a b) (h2 : BlockStep b c) :
    BlockStep a c := by
  constructor
  · intro n v h
    rcases h2.1 n v h with hm | hb
    · exact Or.inl hm
    · exact h1.1 n v hb
  · intro n h
    exact h2.2 n (h1.2 n h)

theorem Block.get_symbol_add (b : Block) (n : String) (v : Variable) (m : String) :
    (b.add_symbol n v).get_symbol m = if n = m then some v else b.get_symbol m := by
  by_cases h : n = m
  · simp [Block.add_symbol, Block.get_symbol, lookupName, h]
  · simp [Block.add_symbol, Block.get_symbol, lookupName, h]

theorem BlockStep.add_mutable (b : Block) (n : String) (d : DataType) :
    BlockStep b (b.add_symbol n (Variable.new_mutable d)) := by
  constructor
  · intro m w h
    rw [Block.get_symbol_add] at h
    by_cases hnm : n = m
    · rw [if_pos hnm] at h
      left
      cases h
      rfl
    · rw [if_neg hnm] at h
      exact Or.inr h
  · intro m h
    rw [Block.get_symbol_add]
    by_cases hnm : n = m
    · rw [if_pos hnm]
      rfl
    · rw [if_neg hnm]
      exact h

theorem POut.onBlock_imp {α : Type} {P Q : Block → Prop} (r : POut α)
    (h : r.onBlock P) (himp : ∀ b, P b → Q b) : r.onBlock Q := by
  cases r <;> simp only [POut.onBlock] at h ⊢ <;> try trivial
  · exact himp _ h
  · exact himp _ h

theorem handle_mutable_assignment_block (n : String) (op : Operator)
    (e : AbstractSyntaxTree) (s : PState) (b : Block) :
    (handle_mutable_assignment n op e s b).onBlock (BlockStep b) := by
  unfold handle_mutable_assignment
  dsimp only
  repeat' split
  all_goals first
    | trivial
    | exact BlockStep.refl _
    | exact BlockStep.add_mutable _ _ _
    | exact BlockStep.trans (BlockStep.add_mutable _ _ _) (BlockStep.add_mutable _ _ _)

theorem blocks_all (fuel : Nat) :
    (∀ s b, (parse_factor fuel s b).onBlock (BlockStep b)) ∧
    (∀ p s b, (parse_arithmetic_expression fuel p s b).onBlock (BlockStep b)) ∧
    (∀ p l s b, (binary_loop fuel p l s b).onBlock (BlockStep b)) ∧
    (∀ s b, (parse_assignment_expression fuel s b).onBlock (BlockStep b)) ∧
    (∀ s b, (handle_mutable_keyword fuel s b).onBlock (BlockStep b)) := by
  induction fuel with
  | zero =>
    refine ⟨?_, ?_, ?_, ?_, ?_⟩ <;> intros <;>
      simp [parse_factor, parse_arithmetic_expression, binary_loop,
        parse_assignment_expression, handle_mutable_keyword, POut.onBlock]
  | succ fuel ih =>
    obtain ⟨ihf, iha, ihl, ihs, ihm⟩ := ih
    refine ⟨?_, ?_, ?_, ?_, ?_⟩
    · -- parse_factor
      intro s b
      simp only [parse_factor]
      cases hk : (s.get_current_token).kind <;> simp only [POut.onBlock] <;>
        try exact BlockStep.refl b
      case SymbolToken sym =>
        cases sym <;> simp only [POut.onBlock] <;> try exact BlockStep.refl b
        case OpenParanthesis =>
          cases hq : parse_assignment_expression fuel s.advance b <;>
            simp only [POut.onBlock] <;> try trivial
          rename_i e s1 b1
          · have hstep := ihs s.advance b
            rw [hq] at hstep
            simp only [POut.onBlock] at hstep
            by_cases hc : (s1.get_current_token).kind = .SymbolToken .CloseParanthesis
            · rw [if_pos hc]
              exact hstep
            · rw [if_neg hc]
              exact hstep
          · rename_i e s1 b1
            have hstep := ihs s.advance b
            rw [hq] at hstep
            simp only [POut.onBlock] at hstep
            exact hstep
    · -- parse_arithmetic_expression
      intro p s b
      simp only [parse_arithmetic_expression]
      cases hmo : match_operator s 0 with
      | none =>
        cases hf : parse_factor fuel s b <;> simp only [POut.onBlock] <;> try trivial
        case ok left s1 b1 =>
          have hstep := ihf s b
          rw [hf] at hstep
          simp only [POut.onBlock] at hstep
          exact POut.onBlock_imp _ (ihl p left s1 b1) (fun b2 h2 => hstep.trans h2)
        case err e s1 b1 =>
          have hstep := ihf s b
          rw [hf] at hstep
          simp only [POut.onBlock] at hstep
          exact hstep
      | some pr =>
        obtain ⟨operator, len⟩ := pr
        dsimp only
        by_cases hpre : p ≤ operator.get_unery_precedence
        · rw [if_pos hpre]
          cases ha : parse_arithmetic_expression fuel operator.get_unery_precedence
              s.advance b <;> simp only [POut.onBlock] <;> try trivial
          next e s1 b1 =>
            have hstep := iha operator.get_unery_precedence s.advance b
            rw [ha] at hstep
            simp only [POut.onBlock] at hstep
            exact POut.onBlock_imp _ (ihl p _ s1 b1) (fun b2 h2 => hstep.trans h2)
          next e s1 b1 =>
            have hstep := iha operator.get_unery_precedence s.advance b
            rw [ha] at hstep
            simp only [POut.onBlock] at hstep
            exact hstep
        · rw [if_neg hpre]
          cases hf : parse_factor fuel s b <;> simp only [POut.onBlock] <;> try trivial
          next left s1 b1 =>
            have hstep := ihf s b
            rw [hf] at hstep
            simp only [POut.onBlock] at hstep
            exact POut.onBlock_imp _ (ihl p left s1 b1) (fun b2 h2 => hstep.trans h2)
          next e s1 b1 =>
            have hstep := ihf s b
            rw [hf] at hstep
            simp only [POut.onBlock] at hstep
            exact hstep
    · -- binary_loop
      intro p l s b
      simp only [binary_loop]
      cases hmo : match_operator s 0 with
      | none =>
        simp only [POut.onBlock]
        exact BlockStep.refl b
      | some pr =>
        obtain ⟨operator, len⟩ := pr
        dsimp only
        by_cases hpre : operator.get_binary_precedence ≤ p
        · rw [if_pos hpre]
          exact BlockStep.refl b
        · rw [if_neg hpre]
          cases ha : parse_arithmetic_expression fuel operator.get_binary_precedence
              (s.advanceN len) b <;> simp only [POut.onBlock] <;> try trivial
          next right s1 b1 =>
            have hstep := iha operator.get_binary_precedence (s.advanceN len) b
            rw [ha] at hstep
            simp only [POut.onBlock] at hstep
            exact POut.onBlock_imp _ (ihl p _ s1 b1) (fun b2 h2 => hstep.trans h2)
          next e s1 b1 =>
            have hstep := iha operator.get_binary_precedence (s.advanceN len) b
            rw [ha] at hstep
            simp only [POut.onBlock] at hstep
            exact hstep
    · -- parse_assignment_expression
      intro s b
      simp only [parse_assignment_expression]
      cases hk : (s.get_current_token).kind <;> try exact iha 0 s b
      case KeywordToken kw =>
        cases kw <;> try exact iha 0 s b
        case Mutable => exact ihm s b
      case IdentifierToken name =>
        cases hmo : match_operator s 1 with
        | none => exact iha 0 s b
        | some pr =>
          obtain ⟨operator, len⟩ := pr
          dsimp only
          cases operator <;> try exact iha 0 s b
          case AssignmentOperator a =>
            cases hq : parse_assignment_expression fuel (s.advanceN len) b <;>
              simp only [POut.onBlock] <;> try trivial
            all_goals
              have hstep := ihs (s.advanceN len) b
            all_goals rw [hq] at hstep
            all_goals simp only [POut.onBlock] at hstep
            all_goals exact hstep
    · -- handle_mutable_keyword
      intro s b
      simp only [handle_mutable_keyword]
      cases hk : (s.peek 1).kind <;> simp only [POut.onBlock] <;>
        try exact BlockStep.refl b
      case IdentifierToken vn =>
        cases hmo : match_operator s 2 with
        | none =>
          dsimp only
          by_cases hc : b.contains_symbol vn = true
          · rw [if_pos hc]
            exact BlockStep.refl b
          · rw [if_neg hc]
            exact BlockStep.refl b
        | some pr =>
          obtain ⟨operator, len⟩ := pr
          dsimp only
          cases hq : parse_assignment_expression fuel (s.advanceN len) b <;>
            simp only [POut.onBlock] <;> try trivial
          next e s1 b1 =>
            have hstep := ihs (s.advanceN len) b
            rw [hq] at hstep
            simp only [POut.onBlock] at hstep
            exact POut.onBlock_imp _ (handle_mutable_assignment_block vn operator e s1 b1)
              (fun b2 h2 => hstep.trans h2)
          next e s1 b1 =>
            have hstep := ihs (s.advanceN len) b
            rw [hq] at hstep
            simp only [POut.onBlock] at hstep
            exact hstep

theorem parse_statements_block (fuel : Nat) :
    ∀ s b acc, (parse_statements fuel s b acc).onBlock (BlockStep b) := by
  induction fuel with
  | zero =>
    intro s b acc
    simp [parse_statements, POut.onBlock]
  | succ fuel ih =>
    intro s b acc
    simp only [parse_statements]
    by_cases he : s.get_current_token.kind = .EndOfFileToken
    · rw [if_pos he]
      exact BlockStep.refl b
    · rw [if_neg he]
      cases hq : parse_assignment_expression fuel s b <;>
        simp only [POut.onBlock] <;> try trivial
      next st s1 b1 =>
        have hstep := (blocks_all fuel).2.2.2.1 s b
        rw [hq] at hstep
        simp only [POut.onBlock] at hstep
        exact POut.onBlock_imp _ (ih s1 b1 (acc ++ [st])) (fun b2 h2 => hstep.trans h2)
      next e s1 b1 =>
        have hstep := (blocks_all fuel).2.2.2.1 s b
        rw [hq] at hstep
        simp only [POut.onBlock] at hstep
        exact hstep

theorem BlockStep.mutableBound {b b' : Block} (h : BlockStep b b') {n : String}
    (hm : mutableBound b n) : mutableBound b' n := by
  obtain ⟨v, hv, hvm⟩ := hm
  have hsome := h.2 n (by rw [hv]; rfl)
  obtain ⟨w, hw⟩ := Option.isSome_iff_exists.mp hsome
  rcases h.1 n w hw with hmut | hsame
  · exact ⟨w, hw, hmut⟩
  · rw [hv] at hsame
    injection hsame with h2
    exact ⟨w, hw, by rw [← h2]; exact hvm⟩

theorem PState.peek_mem_or_eof (s : PState) (k : Nat) :
    s.peek k ∈ s.tokens ∨ s.peek k = eofToken := by
  unfold PState.peek
  rcases Nat.lt_or_ge (s.pos + k) s.tokens.length with hlt | hge
  · left
    rw [List.getD_eq_getElem?_getD, List.getElem?_eq_getElem hlt]
    exact List.getElem_mem hlt
  · right
    exact List.getD_eq_default _ _ hge

theorem PState.peek_not_mutable (s : PState) (k : Nat)
    (h : ∀ t ∈ s.tokens, t.kind ≠ .KeywordToken .Mutable) :
    (s.peek k).kind ≠ .KeywordToken .Mutable := by
  rcases s.peek_mem_or_eof k with hm | he
  · exact h _ hm
  · rw [he]
    simp [eofToken]

theorem frame_all (fuel : Nat) :
    (∀ s b, (∀ t ∈ s.tokens, t.kind ≠ .KeywordToken .Mutable) →
      (parse_factor fuel s b).onBlock (fun b1 => b1 = b)) ∧
    (∀ p s b, (∀ t ∈ s.tokens, t.kind ≠ .KeywordToken .Mutable) →
      (parse_arithmetic_expression fuel p s b).onBlock (fun b1 => b1 = b)) ∧
    (∀ p l s b, (∀ t ∈ s.tokens, t.kind ≠ .KeywordToken .Mutable) →
      (binary_loop fuel p l s b).onBlock (fun b1 => b1 = b)) ∧
    (∀ s b, (∀ t ∈ s.tokens, t.kind ≠ .KeywordToken .Mutable) →
      (parse_assignment_expression fuel s b).onBlock (fun b1 => b1 = b)) := by
  induction fuel with
  | zero =>
    refine ⟨?_, ?_, ?_, ?_⟩ <;> intros <;>
      simp [parse_factor, parse_arithmetic_expression, binary_loop,
        parse_assignment_expression, POut.onBlock]
  | succ fuel ih =>
    obtain ⟨ihf, iha, ihl, ihs⟩ := ih
    refine ⟨?_, ?_, ?_, ?_⟩
    · -- parse_factor
      intro s b hnm
      simp only [parse_factor]
      cases hk : (s.get_current_token).kind <;> simp only [POut.onBlock] <;> try rfl
      case SymbolToken sym =>
        cases sym <;> simp only [POut.onBlock] <;> try rfl
        case OpenParanthesis =>
          cases hq : parse_assignment_expression fuel s.advance b <;>
            simp only [POut.onBlock] <;> try trivial
          next e s1 b1 =>
            have hstep := ihs s.advance b hnm
            rw [hq] at hstep
            simp only [POut.onBlock] at hstep
            by_cases hc : (s1.get_current_token).kind = .SymbolToken .CloseParanthesis
            · rw [if_pos hc]
              exact hstep
            · rw [if_neg hc]
              exact hstep
          next e s1 b1 =>
            have hstep := ihs s.advance b hnm
            rw [hq] at hstep
            simp only [POut.onBlock] at hstep
            exact hstep
    · -- parse_arithmetic_expression
      intro p s b hnm
      simp only [parse_arithmetic_expression]
      cases hmo : match_operator s 0 with
      | none =>
        cases hf : parse_factor fuel s b <;> simp only [POut.onBlock] <;> try trivial
        next left s1 b1 =>
          have hstep := ihf s b hnm
          rw [hf] at hstep
          simp only [POut.onBlock] at hstep
          have htok := (tokens_all fuel).1 s b
          rw [hf] at htok
          simp only [POut.okState] at htok
          have hnm1 : ∀ t ∈ s1.tokens, t.kind ≠ .KeywordToken .Mutable := by
            rw [htok]
            exact hnm
          exact POut.onBlock_imp _ (ihl p left s1 b1 hnm1)
            (fun b2 h2 => h2.trans hstep)
        next e s1 b1 =>
          have hstep := ihf s b hnm
          rw [hf] at hstep
          simp only [POut.onBlock] at hstep
          exact hstep
      | some pr =>
        obtain ⟨operator, len⟩ := pr
        dsimp only
        by_cases hpre : p ≤ operator.get_unery_precedence
        · rw [if_pos hpre]
          cases ha : parse_arithmetic_expression fuel operator.get_unery_precedence
              s.advance b <;> simp only [POut.onBlock] <;> try trivial
          next e s1 b1 =>
            have hstep := iha operator.get_unery_precedence s.advance b hnm
            rw [ha] at hstep
            simp only [POut.onBlock] at hstep
            have htok := (tokens_all fuel).2.1 operator.get_unery_precedence s.advance b
            rw [ha] at htok
            simp only [POut.okState, PState.advance_tokens] at htok
            have hnm1 : ∀ t ∈ s1.tokens, t.kind ≠ .KeywordToken .Mutable := by
              rw [htok]
              exact hnm
            exact POut.onBlock_imp _ (ihl p _ s1 b1 hnm1)
              (fun b2 h2 => h2.trans hstep)
          next e s1 b1 =>
            have hstep := iha operator.get_unery_precedence s.advance b hnm
            rw [ha] at hstep
            simp only [POut.onBlock] at hstep
            exact hstep
        · rw [if_neg hpre]
          cases hf : parse_factor fuel s b <;> simp only [POut.onBlock] <;> try trivial
          next left s1 b1 =>
            have hstep := ihf s b hnm
            rw [hf] at hstep
            simp only [POut.onBlock] at hstep
            have htok := (tokens_all fuel).1 s b
            rw [hf] at htok
            simp only [POut.okState] at htok
            have hnm1 : ∀ t ∈ s1.tokens, t.kind ≠ .KeywordToken .Mutable := by
              rw [htok]
              exact hnm
            exact POut.onBlock_imp _ (ihl p left s1 b1 hnm1)
              (fun b2 h2 => h2.trans hstep)
          next e s1 b1 =>
            have hstep := ihf s b hnm
            rw [hf] at hstep
            simp only [POut.onBlock] at hstep
            exact hstep
    · -- binary_loop
      intro p l s b hnm
      simp only [binary_loop]
      cases hmo : match_operator s 0 with
      | none =>
        simp only [POut.onBlock]
      | some pr =>
        obtain ⟨operator, len⟩ := pr
        dsimp only
        by_cases hpre : operator.get_binary_precedence ≤ p
        · rw [if_pos hpre]
          rfl
        · rw [if_neg hpre]
          have hnmN : ∀ t ∈ (s.advanceN len).tokens, t.kind ≠ .KeywordToken .Mutable := by
            rw [PState.advanceN_tokens]
            exact hnm
          cases ha : parse_arithmetic_expression fuel operator.get_binary_precedence
              (s.advanceN len) b <;> simp only [POut.onBlock] <;> try trivial
          next right s1 b1 =>
            have hstep := iha operator.get_binary_precedence (s.advanceN len) b hnmN
            rw [ha] at hstep
            simp only [POut.onBlock] at hstep
            have htok := (tokens_all fuel).2.1 operator.get_binary_precedence
              (s.advanceN len) b
            rw [ha] at htok
            simp only [POut.okState, PState.advanceN_tokens] at htok
            have hnm1 : ∀ t ∈ s1.tokens, t.kind ≠ .KeywordToken .Mutable := by
              rw [htok]
              exact hnm
            exact POut.onBlock_imp _ (ihl p _ s1 b1 hnm1)
              (fun b2 h2 => h2.trans hstep)
          next e s1 b1 =>
            have hstep := iha operator.get_binary_precedence (s.advanceN len) b hnmN
            rw [ha] at hstep
            simp only [POut.onBlock] at hstep
            exact hstep
    · -- parse_assignment_expression
      intro s b hnm
      simp only [parse_assignment_expression]
      cases hk : (s.get_current_token).kind <;> try exact iha 0 s b hnm
      case KeywordToken kw =>
        cases kw <;> try exact iha 0 s b hnm
        case Mutable => exact absurd hk (s.peek_not_mutable 0 hnm)
      case IdentifierToken name =>
        cases hmo : match_operator s 1 with
        | none => exact iha 0 s b hnm
        | some pr =>
          obtain ⟨operator, len⟩ := pr
          dsimp only
          cases operator <;> try exact iha 0 s b hnm
          case AssignmentOperator a =>
            have hnmN : ∀ t ∈ (s.advanceN len).tokens, t.kind ≠ .KeywordToken .Mutable := by
              rw [PState.advanceN_tokens]
              exact hnm
            cases hq : parse_assignment_expression fuel (s.advanceN len) b <;>
              simp only [POut.onBlock] <;> try trivial
            next e s1 b1 =>
              have hstep := ihs (s.advanceN len) b hnmN
              rw [hq] at hstep
              simp only [POut.onBlock] at hstep
              exact hstep
            next e s1 b1 =>
              have hstep := ihs (s.advanceN len) b hnmN
              rw [hq] at hstep
              simp only [POut.onBlock] at hstep
              exact hstep

theorem match_operator_congr (s s' : PState) (offset : Nat)
    (h0 : s.peek offset = s'.peek offset)
    (h1 : s.peek (offset + 1) = s'.peek (offset + 1))
    (h2 : s.peek (offset + 2) = s'.peek (offset + 2)) :
    match_operator s offset = match_operator s' offset := by
  unfold match_operator
  rw [h0, h1, h2]

theorem PState.peek_drop (s : PState) (k : Nat) (d : List CompilerError) :
    PState.peek { tokens := s.tokens.drop s.pos, pos := 0, diags := d } k =
      s.peek k := by
  unfold PState.peek
  dsimp only
  rw [List.getD_eq_getElem?_getD, List.getD_eq_getElem?_getD, List.getElem?_drop,
    Nat.zero_add]

/-- C1: for every offset n and every token stream, match_operator(n) returns
None exactly when the tokens starting at position n do not begin an operator
of the disambiguation table, and otherwise returns the table operator
together with the total consumed-token count, which is the offset n plus the
token count the table documents for that operator (two for two-character
symbol pairs such as == and +=, three for **=, two for **, one for a lone
lead character followed by end-of-file or an unrelated token, two for is
followed by not, one for is alone, and one for the keyword operators and,
or, not, xor). -/
theorem c1_match_operator_matches_resolver_table (s : PState) (offset : Nat) :
    match_operator s offset =
      Option.map (fun p => (p.1, offset + p.2))
        (resolverTable (s.peek offset).kind (s.peek (offset + 1)).kind
          (s.peek (offset + 2)).kind) :=
  match_operator_spec s offset

/-- C2: binary operator parsing is left-associative and respects precedence:
the while loop of parse_arithmetic_expression stops as soon as the next
operator binary precedence is at most the floor, extends the chain exactly
when it is strictly greater, recursing on the right side with that operator
precedence as the new floor and folding the result into a left-associative
BinaryExpression; in particular the tokens of a + b * c parse to
BinaryExpression(a, +, BinaryExpression(b, *, c)) and the tokens of
a + b - c parse to BinaryExpression(BinaryExpression(a, +, b), -, c). -/
theorem c2_binary_parsing_left_assoc_precedence :
    (∀ fuel parent_precedence left s block operator length,
      match_operator s 0 = some (operator, length) →
      operator.get_binary_precedence ≤ parent_precedence →
      binary_loop (fuel + 1) parent_precedence left s block = .ok left s block) ∧
    (∀ fuel parent_precedence left s block operator length,
      match_operator s 0 = some (operator, length) →
      parent_precedence < operator.get_binary_precedence →
      binary_loop (fuel + 1) parent_precedence left s block =
        (match parse_arithmetic_expression fuel operator.get_binary_precedence
            (s.advanceN length) block with
         | .ok right s1 block1 =>
           binary_loop fuel parent_precedence
             (.BinaryExpression left operator right) s1 block1
         | .err e s1 block1 => .err e s1 block1
         | .unimplemented m => .unimplemented m
         | .outOfFuel => .outOfFuel)) ∧
    (∀ x y z : String,
      parse_arithmetic_expression 12 0
        (initState [idT x, symT .Plus, idT y, symT .Asterisk, idT z, eofT]) Block.new =
      .ok (.BinaryExpression (.Identifier x) (.ArithmeticOperator .Addition)
            (.BinaryExpression (.Identifier y) (.ArithmeticOperator .Multiplication)
              (.Identifier z)))
        { tokens := [idT x, symT .Plus, idT y, symT .Asterisk, idT z, eofT],
          pos := 5, diags := [] } Block.new) ∧
    (∀ x y z : String,
      parse_arithmetic_expression 12 0
        (initState [idT x, symT .Plus, idT y, symT .Minus, idT z, eofT]) Block.new =
      .ok (.BinaryExpression
            (.BinaryExpression (.Identifier x) (.ArithmeticOperator .Addition)
              (.Identifier y))
            (.ArithmeticOperator .Subtraction) (.Identifier z))
        { tokens := [idT x, symT .Plus, idT y, symT .Minus, idT z, eofT],
          pos := 5, diags := [] } Block.new) := by
  refine ⟨?_, ?_, ?_, ?_⟩
  · intro fuel parent_precedence left s block operator length hmo hle
    simp only [binary_loop]
    rw [hmo]
    dsimp only
    rw [if_pos hle]
  · intro fuel parent_precedence left s block operator length hmo hgt
    simp only [binary_loop]
    rw [hmo]
    dsimp only
    rw [if_neg (by omega)]
  · intro x y z
    rfl
  · intro x y z
    rfl

/-- Witness for C2 at concrete inputs: the stop law at an operator whose
precedence equals the floor, and the extension law folding q + r. -/
theorem c2_witness :
    binary_loop 5 3 (.Identifier "q") (initState [symT .Plus, idT "r", eofT])
      Block.new =
      .ok (.Identifier "q") (initState [symT .Plus, idT "r", eofT]) Block.new ∧
    binary_loop 5 0 (.Identifier "q") (initState [symT .Plus, idT "r", eofT])
      Block.new =
      .ok (.BinaryExpression (.Identifier "q") (.ArithmeticOperator .Addition)
            (.Identifier "r"))
        { tokens := [symT .Plus, idT "r", eofT], pos := 2, diags := [] } Block.new ∧
    parse_arithmetic_expression 12 0
      (initState [idT "a", symT .Plus, idT "b", symT .Asterisk, idT "c", eofT])
      Block.new =
    .ok (.BinaryExpression (.Identifier "a") (.ArithmeticOperator .Addition)
          (.BinaryExpression (.Identifier "b") (.ArithmeticOperator .Multiplication)
            (.Identifier "c")))
      { tokens := [idT "a", symT .Plus, idT "b", symT .Asterisk, idT "c", eofT],
        pos := 5, diags := [] } Block.new :=
  ⟨c2_binary_parsing_left_assoc_precedence.1 4 3 (.Identifier "q")
      (initState [symT .Plus, idT "r", eofT]) Block.new
      (.ArithmeticOperator .Addition) 1 (by rfl) (by decide),
   (c2_binary_parsing_left_assoc_precedence.2.1 4 0 (.Identifier "q")
      (initState [symT .Plus, idT "r", eofT]) Block.new
      (.ArithmeticOperator .Addition) 1 (by rfl) (by decide)).trans (by rfl),
   c2_binary_parsing_left_assoc_precedence.2.2.1 "a" "b" "c"⟩

/-- C5: match_token consumes and returns the current token when its kind is
the expected one; on a mismatch it consumes nothing, raises no error, and
returns a fresh synthetic FactoryToken (the missing-token placeholder) at
the position of the current token, so parsing continues past the
mismatch. -/
theorem c5_match_token_recovery (kind : TokenKind) (s : PState) :
    (kind = s.get_current_token.kind →
      match_token kind s = (s.get_current_token, s.advance)) ∧
    (kind ≠ s.get_current_token.kind →
      (match_token kind s).2 = s ∧
      (match_token kind s).1 =
        Token.new .FactoryToken s.get_current_token.line
          s.get_current_token.column) := by
  constructor
  · intro h
    unfold match_token
    dsimp only
    rw [if_pos h]
  · intro h
    unfold match_token
    dsimp only
    rw [if_neg h]
    exact ⟨rfl, rfl⟩

/-- Witness for C5 at concrete inputs: one matching call that consumes the
token and one mismatching call that leaves the state unchanged. -/
theorem c5_witness :
    match_token .NewLineToken (initState [Token.new .NewLineToken 1 1]) =
      (Token.new .NewLineToken 1 1,
        (initState [Token.new .NewLineToken 1 1]).advance) ∧
    (match_token .EndOfFileToken (initState [Token.new .NewLineToken 1 1])).2 =
      initState [Token.new .NewLineToken 1 1] ∧
    (match_token .EndOfFileToken (initState [Token.new .NewLineToken 1 1])).1 =
      Token.new .FactoryToken 1 1 :=
  ⟨(c5_match_token_recovery .NewLineToken
      (initState [Token.new .NewLineToken 1 1])).1 (by rfl),
   ((c5_match_token_recovery .EndOfFileToken
      (initState [Token.new .NewLineToken 1 1])).2 (by decide)).1,
   ((c5_match_token_recovery .EndOfFileToken
      (initState [Token.new .NewLineToken 1 1])).2 (by decide)).2⟩

/-- C9: the operator resolver is side-effect-free and re-entrant: its
embedding is a read-only function of the parser state (the source only
calls peek, never advance, so the cursor and all block and symbol-table
state are unchanged by construction); moreover its result does not depend
on the diagnostics sink and is a function of the token suffix at the
cursor only, so repeated speculative calls at the same position always
return the same result. -/
theorem c9_match_operator_side_effect_free (s : PState) (offset : Nat)
    (d d' : List CompilerError) :
    match_operator { s with diags := d } offset =
      match_operator { s with diags := d' } offset ∧
    match_operator s offset =
      match_operator { tokens := s.tokens.drop s.pos, pos := 0, diags := s.diags }
        offset := by
  constructor
  · rfl
  · refine match_operator_congr s _ offset ?_ ?_ ?_ <;>
      exact (PState.peek_drop s _ s.diags).symm

/-- C3: mutability is monotonic and redundant declaration is idempotent:
over any parsed statement sequence in one scope, a name bound mutable stays
bound mutable (every symbol insertion the parser performs is mutable and
insertions never remove bindings); a simple mutable assignment to a name
bound immutable fails with CannotConvertFromImmutableToMutable; and parsing
mutable x = 1 followed by mutable x = 2 in the same scope succeeds for both
statements, leaves x bound mutable, and emits exactly one advisory warning,
which is absent after the first statement alone. -/
theorem c3_mutability_monotonic_idempotent (fuel : Nat) (s : PState) (b : Block)
    (acc : List AbstractSyntaxTree) (name name2 : String) (v : Variable)
    (e : AbstractSyntaxTree) (s2 : PState) (b2 : Block)
    (hmut : mutableBound b name) (hb2 : b2.get_symbol name2 = some v)
    (him : v.is_mutable = false) :
    (parse_statements fuel s b acc).onBlock (fun b1 => mutableBound b1 name) ∧
    handle_mutable_assignment name2 (.AssignmentOperator .SimpleAssignment) e s2 b2 =
      .err .CannotConvertFromImmutableToMutable s2 b2 ∧
    parse 20 [kwT .Mutable, idT "x", symT .Equals, litT 1, kwT .Mutable, idT "x",
        symT .Equals, litT 2, eofT] =
      .ok [.AssignmentExpression "x" (.AssignmentOperator .SimpleAssignment)
             (.Literal ⟨.Number 1, false⟩),
           .AssignmentExpression "x" (.AssignmentOperator .SimpleAssignment)
             (.Literal ⟨.Number 2, false⟩)]
        { tokens := [kwT .Mutable, idT "x", symT .Equals, litT 1, kwT .Mutable,
            idT "x", symT .Equals, litT 2, eofT], pos := 8,
          diags := [.Warnings redundant_mutable_message] }
        { symbols := [("x", ⟨.InternalUndefined, true⟩),
                      ("x", ⟨.InternalUndefined, true⟩)], parents := [] } ∧
    ({ symbols := [("x", ⟨.InternalUndefined, true⟩),
        ("x", ⟨.InternalUndefined, true⟩)], parents := [] } : Block).get_symbol "x" =
      some ⟨.InternalUndefined, true⟩ ∧
    parse_expression 20
      (initState [kwT .Mutable, idT "x", symT .Equals, litT 1, kwT .Mutable,
        idT "x", symT .Equals, litT 2, eofT]) Block.new =
      .ok (.AssignmentExpression "x" (.AssignmentOperator .SimpleAssignment)
            (.Literal ⟨.Number 1, false⟩))
        { tokens := [kwT .Mutable, idT "x", symT .Equals, litT 1, kwT .Mutable,
            idT "x", symT .Equals, litT 2, eofT], pos := 4, diags := [] }
        { symbols := [("x", ⟨.InternalUndefined, true⟩)], parents := [] } := by
  refine ⟨?_, ?_, ?_, ?_, ?_⟩
  · exact POut.onBlock_imp _ (parse_statements_block fuel s b acc)
      (fun b1 h1 => h1.mutableBound hmut)
  · simp [handle_mutable_assignment, Block.contains_symbol, hb2, him]
  · rfl
  · decide
  · rfl

/-- Witness for C3 at concrete inputs: a block where x is bound mutable
stays so through a statement parse, and a simple mutable assignment to an
immutably bound y fails. -/
theorem c3_witness :
    (parse_statements 1 (initState [eofT])
        { symbols := [("x", ⟨.Number 1, true⟩)], parents := [] } []).onBlock
      (fun b1 => mutableBound b1 "x") ∧
    handle_mutable_assignment "y" (.AssignmentOperator .SimpleAssignment)
      (.Literal ⟨.Number 1, false⟩) (initState [eofT])
      { symbols := [("y", ⟨.Number 1, false⟩)], parents := [] } =
      .err .CannotConvertFromImmutableToMutable (initState [eofT])
        { symbols := [("y", ⟨.Number 1, false⟩)], parents := [] } :=
  ⟨(c3_mutability_monotonic_idempotent 1 (initState [eofT])
      { symbols := [("x", ⟨.Number 1, true⟩)], parents := [] } [] "x" "y"
      ⟨.Number 1, false⟩ (.Literal ⟨.Number 1, false⟩) (initState [eofT])
      { symbols := [("y", ⟨.Number 1, false⟩)], parents := [] }
      ⟨⟨.Number 1, true⟩, by decide, by decide⟩ (by decide) (by decide)).1,
   (c3_mutability_monotonic_idempotent 1 (initState [eofT])
      { symbols := [("x", ⟨.Number 1, true⟩)], parents := [] } [] "x" "y"
      ⟨.Number 1, false⟩ (.Literal ⟨.Number 1, false⟩) (initState [eofT])
      { symbols := [("y", ⟨.Number 1, false⟩)], parents := [] }
      ⟨⟨.Number 1, true⟩, by decide, by decide⟩ (by decide) (by decide)).2.1⟩

/-- C4: evaluation of the compound mutable assignment mutable x += 1 in a
scope where x is bound mutable with stored value Number 5: the parse
succeeds and produces the AssignmentExpression node, but the parser
re-binds x to the InternalUndefined placeholder: the insertion at
parser.rs lines 479 to 482 overwrites the stored value before the re-bind
at lines 488 to 491 reads it back, so the existing stored value Number 5
is lost, contradicting the documented re-bind-with-existing-value
behavior.  The unbound case does fail with UndefinedVariable as the claim
states. -/
theorem c4_compound_mutable_assignment_eval :
    parse_expression 20
      (initState [kwT .Mutable, idT "x", symT .Plus, symT .Equals, litT 1, eofT])
      { symbols := [("x", ⟨.Number 5, true⟩)], parents := [] } =
      .ok (.AssignmentExpression "x" (.AssignmentOperator .AdditionAssignment)
            (.Literal ⟨.Number 1, false⟩))
        { tokens := [kwT .Mutable, idT "x", symT .Plus, symT .Equals, litT 1, eofT],
          pos := 5, diags := [.Warnings redundant_mutable_message] }
        { symbols := [("x", ⟨.InternalUndefined, true⟩),
                      ("x", ⟨.InternalUndefined, true⟩),
                      ("x", ⟨.Number 5, true⟩)], parents := [] } ∧
    ({ symbols := [("x", ⟨.InternalUndefined, true⟩),
        ("x", ⟨.InternalUndefined, true⟩), ("x", ⟨.Number 5, true⟩)],
        parents := [] } : Block).get_symbol "x" = some ⟨.InternalUndefined, true⟩ ∧
    ({ symbols := [("x", ⟨.Number 5, true⟩)], parents := [] } : Block).get_symbol "x" =
      some ⟨.Number 5, true⟩ ∧
    (⟨.InternalUndefined, true⟩ : Variable) ≠ (⟨.Number 5, true⟩ : Variable) ∧
    parse_expression 20
      (initState [kwT .Mutable, idT "x", symT .Plus, symT .Equals, litT 1, eofT])
      Block.new =
      .err (.UndefinedVariable "x")
        { tokens := [kwT .Mutable, idT "x", symT .Plus, symT .Equals, litT 1, eofT],
          pos := 5, diags := [] } Block.new := by
  exact ⟨rfl, by decide, by decide, by decide, rfl⟩

/-- C6: the mutable-declaration error cases: a non-identifier after the
mutable keyword fails with InvalidUseOfMutableKeyword; bare mutable name
with no operator two tokens ahead fails with
CannotConvertFromImmutableToMutable when the name is bound in the scope
chain and with UnInitializedVariable when it is unbound; and a relational
or logical operator after mutable name, once the right-hand side parses,
fails with InvalidOperationAsAssignmentOperation. -/
theorem c6_mutable_declaration_errors (fuel : Nat) (s : PState) (b : Block) :
    ((∀ n, (s.peek 1).kind ≠ .IdentifierToken n) →
      handle_mutable_keyword (fuel + 1) s b = .err .InvalidUseOfMutableKeyword s b) ∧
    (∀ name, (s.peek 1).kind = .IdentifierToken name →
      match_operator s 2 = none →
      handle_mutable_keyword (fuel + 1) s b =
        (if b.contains_symbol name then
          .err .CannotConvertFromImmutableToMutable s b
        else
          .err (.UnInitializedVariable name) s b)) ∧
    (∀ name op len e s1 b1, (s.peek 1).kind = .IdentifierToken name →
      match_operator s 2 = some (op, len) →
      ((∃ r, op = .RelationalOperator r) ∨ (∃ l, op = .LogicalOperator l)) →
      parse_assignment_expression fuel (s.advanceN len) b = .ok e s1 b1 →
      handle_mutable_keyword (fuel + 1) s b =
        .err .InvalidOperationAsAssignmentOperation s1 b1) := by
  refine ⟨?_, ?_, ?_⟩
  · intro h
    cases hk : (s.peek 1).kind
    case IdentifierToken n => exact absurd hk (h n)
    all_goals simp only [handle_mutable_keyword]
  · intro name h1 h2
    simp only [handle_mutable_keyword]
    rw [h1]
    dsimp only
    rw [h2]
  · intro name op len e s1 b1 h1 h2 hop h4
    simp only [handle_mutable_keyword]
    rw [h1]
    dsimp only
    rw [h2]
    dsimp only
    rw [h4]
    dsimp only
    rcases hop with ⟨r, rfl⟩ | ⟨l, rfl⟩ <;> rfl

/-- Witness for C6 at concrete inputs: mutable 5, bare mutable y unbound,
and mutable y < 5. -/
theorem c6_witness :
    handle_mutable_keyword 3 (initState [kwT .Mutable, litT 5, eofT]) Block.new =
      .err .InvalidUseOfMutableKeyword (initState [kwT .Mutable, litT 5, eofT])
        Block.new ∧
    handle_mutable_keyword 3 (initState [kwT .Mutable, idT "y", eofT]) Block.new =
      .err (.UnInitializedVariable "y") (initState [kwT .Mutable, idT "y", eofT])
        Block.new ∧
    handle_mutable_keyword 20
      (initState [kwT .Mutable, idT "y", symT .LessThan, litT 5, eofT]) Block.new =
      .err .InvalidOperationAsAssignmentOperation
        { tokens := [kwT .Mutable, idT "y", symT .LessThan, litT 5, eofT],
          pos := 4, diags := [] } Block.new :=
  ⟨(c6_mutable_declaration_errors 2 (initState [kwT .Mutable, litT 5, eofT])
      Block.new).1 (fun n h => by cases h),
   ((c6_mutable_declaration_errors 2 (initState [kwT .Mutable, idT "y", eofT])
      Block.new).2.1 "y" (by rfl) (by rfl)).trans (by rfl),
   (c6_mutable_declaration_errors 19
      (initState [kwT .Mutable, idT "y", symT .LessThan, litT 5, eofT])
      Block.new).2.2 "y" (.RelationalOperator .LessThan) 3 (.Literal ⟨.Number 5, false⟩)
      { tokens := [kwT .Mutable, idT "y", symT .LessThan, litT 5, eofT],
        pos := 4, diags := [] } Block.new (by rfl) (by rfl)
      (Or.inl ⟨.LessThan, rfl⟩) (by rfl)⟩

/-- C7 counterexample: the claim says every token kind other than literal,
identifier and parentheses yields an UnexpectedToken error from
parse_factor, but a symbol token other than a parenthesis (here an open
curly bracket) reaches the todo branch of parser.rs line 175 and panics,
returning no UnexpectedToken error. -/
theorem c7_counterexample :
    parse_factor 1 (initState [symT .OpenCurlyBracket, eofT]) Block.new =
      .unimplemented "parse_factor" ∧
    (parse_factor 1 (initState [symT .OpenCurlyBracket, eofT])
        Block.new).isUnexpectedTokenError = false :=
  ⟨rfl, rfl⟩

/-- C7 amended: parse_factor consumes the current token and classifies it:
a literal token yields a Literal node, an identifier token an Identifier
node; an open parenthesis begins a nested expression parse that must be
followed by a close parenthesis, else an UnexpectedToken error naming the
close parenthesis as expected; a bare close parenthesis is an
UnexpectedToken error; a symbol token other than a parenthesis reaches the
unimplemented todo path and panics; and every non-symbol remaining token
kind (whitespace, newline, keyword, factory, end-of-file) yields an
UnexpectedToken error carrying that token kind and source position. -/
theorem c7_parse_factor_amended (fuel : Nat) (s : PState) (b : Block) :
    (∀ v, s.get_current_token.kind = .LiteralToken v →
      parse_factor (fuel + 1) s b = .ok (.Literal v) s.advance b) ∧
    (∀ n, s.get_current_token.kind = .IdentifierToken n →
      parse_factor (fuel + 1) s b = .ok (.Identifier n) s.advance b) ∧
    (s.get_current_token.kind = .SymbolToken .OpenParanthesis →
      parse_factor (fuel + 1) s b =
        (match parse_assignment_expression fuel s.advance b with
         | .ok e s1 b1 =>
           if s1.get_current_token.kind = .SymbolToken .CloseParanthesis then
             .ok (.ParenthesizedExpression e) s1.advance b1
           else
             .err (.UnexpectedToken (.SymbolToken .CloseParanthesis)
               s.get_current_token.line s.get_current_token.column) s1.advance b1
         | .err e s1 b1 => .err e s1 b1
         | .unimplemented m => .unimplemented m
         | .outOfFuel => .outOfFuel)) ∧
    (s.get_current_token.kind = .SymbolToken .CloseParanthesis →
      parse_factor (fuel + 1) s b =
        .err (.UnexpectedToken (.SymbolToken .CloseParanthesis)
          s.get_current_token.line s.get_current_token.column) s.advance b) ∧
    (∀ sym, s.get_current_token.kind = .SymbolToken sym →
      sym ≠ .OpenParanthesis → sym ≠ .CloseParanthesis →
      parse_factor (fuel + 1) s b = .unimplemented "parse_factor") ∧
    (∀ cnt, s.get_current_token.kind = .WhitespaceToken cnt →
      parse_factor (fuel + 1) s b =
        .err (.UnexpectedToken (.WhitespaceToken cnt) s.get_current_token.line
          s.get_current_token.column) s.advance b) ∧
    (s.get_current_token.kind = .NewLineToken →
      parse_factor (fuel + 1) s b =
        .err (.UnexpectedToken .NewLineToken s.get_current_token.line
          s.get_current_token.column) s.advance b) ∧
    (∀ kw, s.get_current_token.kind = .KeywordToken kw →
      parse_factor (fuel + 1) s b =
        .err (.UnexpectedToken (.KeywordToken kw) s.get_current_token.line
          s.get_current_token.column) s.advance b) ∧
    (s.get_current_token.kind = .FactoryToken →
      parse_factor (fuel + 1) s b =
        .err (.UnexpectedToken .FactoryToken s.get_current_token.line
          s.get_current_token.column) s.advance b) ∧
    (s.get_current_token.kind = .EndOfFileToken →
      parse_factor (fuel + 1) s b =
        .err (.UnexpectedToken .EndOfFileToken s.get_current_token.line
          s.get_current_token.column) s.advance b) := by
  refine ⟨?_, ?_, ?_, ?_, ?_, ?_, ?_, ?_, ?_, ?_⟩
  · intro v h
    simp only [parse_factor]
    rw [h]
  · intro n h
    simp only [parse_factor]
    rw [h]
  · intro h
    simp only [parse_factor]
    rw [h]
  · intro h
    simp only [parse_factor]
    rw [h]
  · intro sym h h1 h2
    simp only [parse_factor]
    rw [h]
    cases sym <;> first
      | rfl
      | exact absurd rfl h1
      | exact absurd rfl h2
  · intro cnt h
    simp only [parse_factor]
    rw [h]
  · intro h
    simp only [parse_factor]
    rw [h]
  · intro kw h
    simp only [parse_factor]
    rw [h]
  · intro h
    simp only [parse_factor]
    rw [h]
  · intro h
    simp only [parse_factor]
    rw [h]

/-- Witness for C7 at concrete inputs: a literal factor, an identifier
factor, a balanced parenthesized factor, a bare close parenthesis, a
non-parenthesis symbol, and an end-of-file token. -/
theorem c7_witness :
    parse_factor 3 (initState [litT 7, eofT]) Block.new =
      .ok (.Literal ⟨.Number 7, false⟩) (initState [litT 7, eofT]).advance
        Block.new ∧
    parse_factor 3 (initState [idT "a", eofT]) Block.new =
      .ok (.Identifier "a") (initState [idT "a", eofT]).advance Block.new ∧
    parse_factor 9
      (initState [symT .OpenParanthesis, idT "a", symT .CloseParanthesis, eofT])
      Block.new =
      .ok (.ParenthesizedExpression (.Identifier "a"))
        { tokens := [symT .OpenParanthesis, idT "a", symT .CloseParanthesis, eofT],
          pos := 3, diags := [] } Block.new ∧
    parse_factor 3 (initState [symT .CloseParanthesis, eofT]) Block.new =
      .err (.UnexpectedToken (.SymbolToken .CloseParanthesis) 1 1)
        (initState [symT .CloseParanthesis, eofT]).advance Block.new ∧
    parse_factor 3 (initState [symT .CloseCurlyBracket, eofT]) Block.new =
      .unimplemented "parse_factor" ∧
    parse_factor 3 (initState [eofT]) Block.new =
      .err (.UnexpectedToken .EndOfFileToken 1 9)
        (initState [eofT]).advance Block.new :=
  ⟨(c7_parse_factor_amended 2 (initState [litT 7, eofT]) Block.new).1
      ⟨.Number 7, false⟩ (by rfl),
   (c7_parse_factor_amended 2 (initState [idT "a", eofT]) Block.new).2.1 "a" (by rfl),
   ((c7_parse_factor_amended 8
      (initState [symT .OpenParanthesis, idT "a", symT .CloseParanthesis, eofT])
      Block.new).2.2.1 (by rfl)).trans (by rfl),
   (c7_parse_factor_amended 2 (initState [symT .CloseParanthesis, eofT])
      Block.new).2.2.2.1 (by rfl),
   (c7_parse_factor_amended 2 (initState [symT .CloseCurlyBracket, eofT])
      Block.new).2.2.2.2.1 .CloseCurlyBracket (by rfl) (by decide) (by decide),
   (c7_parse_factor_amended 2 (initState [eofT]) Block.new).2.2.2.2.2.2.2.2.2
      (by rfl)⟩

/-- C8: plain (non-mutable) assignment: when the current token is an
identifier followed by an assignment-category operator one token later,
the parser consumes the name and operator tokens, parses the right-hand
side as another assignment expression (right-associative recursion),
wraps it in an AssignmentExpression node for the existing name, and
threads the block through untouched; and whenever the token stream
contains no mutable keyword at all, the whole parse leaves the block (its
own and every ancestor table) exactly as it was. -/
theorem c8_plain_assignment_frame (fuel : Nat) (s : PState) (b : Block)
    (name : String) (a : Assingment) (len : Nat)
    (hid : s.get_current_token.kind = .IdentifierToken name)
    (hop : match_operator s 1 = some (.AssignmentOperator a, len)) :
    parse_assignment_expression (fuel + 1) s b =
      (match parse_assignment_expression fuel (s.advanceN len) b with
       | .ok e s1 b1 =>
         .ok (.AssignmentExpression name (.AssignmentOperator a) e) s1 b1
       | .err e s1 b1 => .err e s1 b1
       | .unimplemented m => .unimplemented m
       | .outOfFuel => .outOfFuel) ∧
    ((∀ t ∈ s.tokens, t.kind ≠ .KeywordToken .Mutable) →
      (parse_assignment_expression (fuel + 1) s b).onBlock (fun b1 => b1 = b)) := by
  constructor
  · simp only [parse_assignment_expression]
    rw [hid]
    dsimp only
    rw [hop]
  · intro hnm
    exact (frame_all (fuel + 1)).2.2.2 s b hnm

/-- Witness for C8 at the concrete input x = 1. -/
theorem c8_witness :
    parse_assignment_expression 19 (initState [idT "x", symT .Equals, litT 1, eofT])
      Block.new =
      .ok (.AssignmentExpression "x" (.AssignmentOperator .SimpleAssignment)
            (.Literal ⟨.Number 1, false⟩))
        { tokens := [idT "x", symT .Equals, litT 1, eofT], pos := 3, diags := [] }
        Block.new ∧
    (parse_assignment_expression 19 (initState [idT "x", symT .Equals, litT 1, eofT])
        Block.new).onBlock (fun b1 => b1 = Block.new) :=
  ⟨((c8_plain_assignment_frame 18 (initState [idT "x", symT .Equals, litT 1, eofT])
      Block.new "x" .SimpleAssignment 2 (by rfl) (by rfl)).1).trans (by rfl),
   (c8_plain_assignment_frame 18 (initState [idT "x", symT .Equals, litT 1, eofT])
      Block.new "x" .SimpleAssignment 2 (by rfl) (by rfl)).2 (by decide)⟩

/-- C10: parsing makes progress and terminates: every successful
parse_expression call strictly advances the cursor; with fuel
3 * tokens + 6 the top-level statement loop of parse never exhausts its
fuel (it ends at the end-of-file token or at the first fatal error or
panic), and the same bound terminates the parse_block statement loop. -/
theorem c10_termination_and_progress :
    (∀ tokens : List Token, parse (3 * tokens.length + 6) tokens ≠ .outOfFuel) ∧
    (∀ fuel parent s, s.pos ≤ s.tokens.length →
      3 * (s.tokens.length - s.pos) + 6 ≤ fuel →
      parse_block fuel parent s ≠ .outOfFuel) ∧
    (∀ fuel s block a s1 block1, s.pos ≤ s.tokens.length →
      parse_expression fuel s block = .ok a s1 block1 → s.pos < s1.pos) := by
  refine ⟨?_, ?_, ?_⟩
  · intro tokens
    unfold parse
    refine parse_statements_ne_oof (3 * tokens.length + 6) _ Block.new []
      (Nat.zero_le _) ?_
    simp
  · intro fuel parent s hle hfuel
    exact parse_block_ne_oof fuel parent s hle hfuel
  · intro fuel s block a s1 block1 hle hok
    unfold parse_expression at hok
    have hprog := (progress_all fuel).2.2.2.1 s block hle
    rw [hok] at hprog
    simp only [POut.okState] at hprog
    omega

/-- Witness for C10 at concrete inputs: a small block parse terminates and
a literal-statement parse advances the cursor. -/
theorem c10_witness :
    parse_block 20 Block.new
      (initState [symT .OpenCurlyBracket, symT .CloseCurlyBracket, eofT]) ≠
      .outOfFuel ∧
    (initState [litT 1, eofT]).pos <
      ({ tokens := [litT 1, eofT], pos := 1, diags := [] } : PState).pos :=
  ⟨c10_termination_and_progress.2.1 20 Block.new
      (initState [symT .OpenCurlyBracket, symT .CloseCurlyBracket, eofT])
      (by decide) (by decide),
   c10_termination_and_progress.2.2 10 (initState [litT 1, eofT]) Block.new
      (.Literal ⟨.Number 1, false⟩)
      { tokens := [litT 1, eofT], pos := 1, diags := [] } Block.new
      (by decide) (by rfl)⟩

end Compiler
